import Mathlib

/-!
Verification development for the mount/volume resolution core of buildah
(`internal/volumes/volumes.go`).

The Go code is shallowly embedded: every function of the source file is
translated into a Lean function of the same name.  External collaborators
(the storage engine, the overlay primitive, path validators, the lock
library, the volume parser, the digest function, SELinux state, the
temporary directory and the rootless UID) are modelled as an `Env` record
of oracle functions; each oracle returns `Except String α`, and an oracle
failure is propagated as the `MErr.external` error constructor, so the
resolver-local error sentinels of the source are distinguishable from
collaborator failures.  Side effects on resources (mounting images,
creating overlay temporary directories, acquiring and releasing locks) are
recorded in an explicit event trace returned next to every result, mirroring
the order in which the Go code performs those calls (including the deferred
cleanup blocks guarded by the `succeeded` booleans).

Go string primitives used by the source (`strings.Split`, `strings.Cut`,
`strings.HasPrefix`, `path.IsAbs`, `filepath.Join`, `filepath.Dir`,
`filepath.Base`) are given executable models below; `filepath.Join`,
`filepath.Dir` and `filepath.Base` are modelled without the `Clean`
normalization step (the claims under study do not depend on path cleaning).
-/

/-! ## Go string primitives -/

/-- Model of `strings.Split(s, sep)` for a one-character separator:
splits at every occurrence, keeping empty fields; the empty string yields
one empty field, as in Go. -/
def splitOnChar (sep : Char) (s : String) : List String :=
  go s.data []
where
  go : List Char → List Char → List String
    | [], acc => [String.mk acc.reverse]
    | c :: cs, acc =>
      if c = sep then String.mk acc.reverse :: go cs [] else go cs (c :: acc)

/-- Model of `strings.Cut(s, "=")`: the part before the first `=`, the part
after it, and whether an `=` occurred. -/
def cutEq (s : String) : String × String × Bool :=
  go s.data []
where
  go : List Char → List Char → String × String × Bool
    | [], acc => (String.mk acc.reverse, "", false)
    | c :: cs, acc =>
      if c = '=' then (String.mk acc.reverse, String.mk cs, true) else go cs (c :: acc)

/-- Model of `strings.HasPrefix(s, p)`. -/
def hasPre (p s : String) : Bool :=
  p.data.isPrefixOf s.data

/-- Model of `path.IsAbs`: the path starts with a slash. -/
def pathIsAbs (s : String) : Bool :=
  match s.data with
  | '/' :: _ => true
  | _ => false

/-- Model of `filepath.Join(a, b)` (without the trailing `Clean`). -/
def joinPath (a b : String) : String :=
  if a = "" then b else if b = "" then a else a ++ "/" ++ b

/-- Characters of a list that follow the last slash (helper for `baseOf`). -/
def lastComponent : List Char → List Char → List Char
  | [], acc => acc.reverse
  | c :: cs, acc => if c = '/' then lastComponent cs [] else lastComponent cs (c :: acc)

/-- Model of `filepath.Base` for slash-normalized paths. -/
def baseOf (s : String) : String :=
  if s = "" then "." else String.mk (lastComponent s.data [])

/-- Characters strictly before the last slash, if the list has a slash
(helper for `dirOf`). -/
def beforeLastSlash : List Char → Option (List Char)
  | [] => none
  | c :: cs =>
    match beforeLastSlash cs with
    | some r => some (c :: r)
    | none => if c = '/' then some [] else none

/-- Model of `filepath.Dir` for slash-normalized paths. -/
def dirOf (s : String) : String :=
  match beforeLastSlash s.data with
  | none => "."
  | some [] => "/"
  | some r => String.mk r

/-- Digits of a decimal literal, or `none` (helper for `parseAtoi`). -/
def digitsToNat (l : List Char) : Option Nat :=
  if l ≠ [] ∧ l.all Char.isDigit then
    some (l.foldl (fun a c => a * 10 + (c.toNat - 48)) 0)
  else none

/-- Model of `strconv.Atoi`: optional sign, decimal digits. -/
def parseAtoi (s : String) : Option Int :=
  match s.data with
  | '-' :: rest => (digitsToNat rest).map (fun n => -(n : Int))
  | '+' :: rest => (digitsToNat rest).map Int.ofNat
  | l => (digitsToNat l).map Int.ofNat

/-- Model of `strconv.ParseUint(s, 8, 32)`: octal digits, 32-bit range. -/
def parseOctal32 (s : String) : Option Nat :=
  if s.data ≠ [] ∧ s.data.all (fun c => '0' ≤ c ∧ c ≤ '7') then
    let v := s.data.foldl (fun a c => a * 8 + (c.toNat - 48)) 0
    if v < 2 ^ 32 then some v else none
  else none

/-! ## Data model -/

/-- `specs.Mount`: the OCI-shaped mount descriptor built by the resolvers. -/
structure Mount where
  typ : String
  source : String
  destination : String
  options : List String
deriving Repr, DecidableEq

/-- Error kinds of the source file.  The `errBadMntOption`, `errBadOptionArg`,
`errBadVolDest`, `errBadVolSrc` and `errDuplicateDest` sentinels keep their
identity (the payload records the offending key, token or destination that
the Go code formats into the message); `external` carries a collaborator
failure message. -/
inductive MErr where
  | badMntOption (k : String)
  | badOptionArg (k : String)
  | badVolDest
  | badVolSrc
  | duplicateDest (d : String)
  | malformedSpec (s : String)
  | unrecognizedSharing (v : String)
  | invalidCacheAttr (k : String)
  | noStage (n : String)
  | invalidFsType (t : String)
  | external (msg : String)
deriving Repr, DecidableEq

/-- Side-resource events, recorded in the order the Go code performs the
corresponding collaborator calls.  `dispatch` records which resolver a
`--mount` string was handed to, and `resolvedDest` records the destination
of each successfully resolved entry just before its duplicate check. -/
inductive Event where
  | mountImage (id : String)
  | unmountImage (id : String)
  | createOverlay (dir : String)
  | removeOverlay (dir : String)
  | lockAcquire (path : String)
  | lockRelease (path : String)
  | dispatch (ty : String)
  | resolvedDest (d : String)
deriving Repr, DecidableEq

/-- `internal.StageMountDetails` (the fields used by this file). -/
structure StageMountDetails where
  isImage : Bool
  mountPoint : String
deriving Repr, DecidableEq

/-- The external collaborators of the source file, as oracle functions.
A `.error msg` result of an oracle is propagated as `MErr.external msg`. -/
structure Env where
  tempDir : String
  rootlessUID : Nat
  selinuxEnabled : Bool
  digest16 : String → String
  validateCtrDir : String → Except String Unit
  validateHostDir : String → Except String Unit
  copierEval : String → String → Except String String
  lookupImage : String → Except String String
  imageMount : String → Except String String
  overlayTempDir : String → Except String String
  statIsDir : String → Except String Bool
  overlayMnt : String → String → String → String → Except String Mount
  mkdirAll : String → Except String Unit
  mkdirChown : String → Except String Unit
  getLockFile : String → Except String Unit
  parseVolume : String → Except String Mount

/-- Well-formedness of an environment: a successfully looked-up image has a
non-empty ID and a successfully allocated overlay temporary directory has a
non-empty name (true of the real collaborators). -/
structure EnvWF (env : Env) : Prop where
  lookup_ne : ∀ n i, env.lookupImage n = .ok i → i ≠ ""
  overlay_ne : ∀ t d, env.overlayTempDir t = .ok d → d ≠ ""

/-! ## Constants of the source file -/

def TypeBind : String := "bind"
def TypeTmpfs : String := "tmpfs"
def TypeCache : String := "cache"
def buildahCacheDir : String := "buildah-cache"
def BuildahCacheLockfile : String := "buildah-cache-lockfile"
def BuildahCacheLockfileDir : String := "buildah-cache-lockfiles"

/-- `CacheParent`: per-user cache root, `tmpdir.GetTempDir()` joined with
`buildah-cache-<rootless uid>`. -/
def CacheParent (env : Env) : String :=
  joinPath env.tempDir (buildahCacheDir ++ "-" ++ Nat.repr env.rootlessUID)

/-! ## Shared option validation (modelled collaborator) -/

/-- Option names accepted by the shared volume-option validator. -/
def knownVolumeOpts : List String :=
  ["rw", "ro", "bind", "rbind", "nosuid", "nodev", "noexec",
   "shared", "rshared", "private", "rprivate", "slave", "rslave",
   "Z", "z", "U", "no-dereference"]

/-- Whether an option is an SELinux label-change marker. -/
def isLabelChangeOpt (o : String) : Bool :=
  o = "Z" ∨ o = "z"

/-- Modelled from the spec: `parse.ValidateVolumeOpts` (repository package
`pkg/parse`, not under `src/`) validates the assembled option set: every
option must be a recognized propagation/relabel/readability/bind flag, and
the relabel markers `Z`/`z` are mutually exclusive (at most one may occur);
on success the option list is returned unchanged. -/
def validateVolumeOpts (options : List String) : Except MErr (List String) :=
  if options.all (fun o => knownVolumeOpts.contains o) then
    if options.countP (fun o => isLabelChangeOpt o) ≤ 1 then
      .ok options
    else
      .error (.external "invalid options: only one of z and Z may be used")
  else
    .error (.external "invalid mount option in option set")

/-! ## mountIsReadWrite and convertToOverlay -/

/-- `mountIsReadWrite`: last one of `rw`/`ro` wins, default read-write. -/
def mountIsReadWrite (m : Mount) : Bool :=
  m.options.foldl
    (fun rw option => if option = "rw" then true else if option = "ro" then false else rw)
    true

/-- `convertToOverlay`: allocate an overlay temporary directory and rewrite
the mount to point at the overlay's merged view; a non-directory source is
overlaid through its parent directory, rebinding to the same-named entry in
the merged view.  The trace records creation and (on the one cleanup path)
removal of the temporary directory. -/
def convertToOverlay (env : Env) (m : Mount) (mountLabel tmpDir : String) :
    Except MErr (Mount × String) × List Event :=
  match env.overlayTempDir tmpDir with
  | .error e => (.error (.external e), [])
  | .ok overlayDir =>
    match env.statIsDir m.source with
    | .error e => (.error (.external e), [.createOverlay overlayDir])
    | .ok true =>
      match env.overlayMnt overlayDir m.source m.destination mountLabel with
      | .error e => (.error (.external e), [.createOverlay overlayDir])
      | .ok mo => (.ok (mo, overlayDir), [.createOverlay overlayDir])
    | .ok false =>
      match env.overlayMnt overlayDir (dirOf m.source) m.destination mountLabel with
      | .error e => (.error (.external e), [.createOverlay overlayDir])
      | .ok mo =>
        if mo.typ ≠ TypeBind then
          (.error (.external "overlay mount is not a bind mount"),
           [.createOverlay overlayDir, .removeOverlay overlayDir])
        else
          (.ok ({ mo with
                    source := joinPath mo.source (baseOf m.source),
                    destination := m.destination }, overlayDir),
           [.createOverlay overlayDir])

/-! ## GetBindMount -/

/-- The mutable locals of `GetBindMount`'s token scan. -/
structure BindScan where
  m : Mount
  setRelabel : String
  mountReadability : String
  setDest : String
  bindNonRecursive : Bool
  fromImage : String
deriving Repr, DecidableEq

def bindInitScan : BindScan :=
  { m := { typ := TypeBind, source := "", destination := "", options := [] },
    setRelabel := "", mountReadability := "", setDest := "",
    bindNonRecursive := false, fromImage := "" }

/-- One iteration of `GetBindMount`'s token loop. -/
def bindScanStep (env : Env) (workDir : String) (st : BindScan) (val : String) :
    Except MErr BindScan :=
  match cutEq val with
  | (argName, argValue, hasArgValue) =>
    match argName with
    | "type" => .ok st
    | "bind-nonrecursive" =>
      .ok { st with m := { st.m with options := st.m.options ++ ["bind"] },
                    bindNonRecursive := true }
    | "nosuid" | "nodev" | "noexec" =>
      .ok { st with m := { st.m with options := st.m.options ++ [argName] } }
    | "rw" | "readwrite" =>
      .ok { st with m := { st.m with options := st.m.options ++ ["rw"] },
                    mountReadability := "rw" }
    | "ro" | "readonly" =>
      .ok { st with m := { st.m with options := st.m.options ++ ["ro"] },
                    mountReadability := "ro" }
    | "shared" | "rshared" | "private" | "rprivate" | "slave" | "rslave"
    | "Z" | "z" | "U" | "no-dereference" =>
      if hasArgValue then .error (.badOptionArg val)
      else .ok { st with m := { st.m with options := st.m.options ++ [argName] } }
    | "from" =>
      if ¬ hasArgValue then .error (.badOptionArg argName)
      else .ok { st with fromImage := argValue }
    | "bind-propagation" =>
      if ¬ hasArgValue then .error (.badOptionArg argName)
      else
        match argValue with
        | "shared" | "rshared" | "private" | "rprivate" | "slave" | "rslave" =>
          .ok { st with m := { st.m with options := st.m.options ++ [argValue] } }
        | _ => .error (.badMntOption argName)
    | "src" | "source" =>
      if ¬ hasArgValue then .error (.badOptionArg argName)
      else .ok { st with m := { st.m with source := argValue } }
    | "target" | "dst" | "destination" =>
      if ¬ hasArgValue then .error (.badOptionArg argName)
      else
        let targetPath := argValue
        let targetPath' := if ¬ pathIsAbs targetPath then joinPath workDir targetPath else targetPath
        match env.validateCtrDir targetPath' with
        | .error e => .error (.external e)
        | .ok _ =>
          .ok { st with setDest := argValue,
                        m := { st.m with destination := targetPath' } }
    | "relabel" =>
      if st.setRelabel ≠ "" then .error (.badOptionArg "relabel")
      else
        match argValue with
        | "private" =>
          .ok { st with setRelabel := argValue,
                        m := { st.m with options := st.m.options ++ ["Z"] } }
        | "shared" =>
          .ok { st with setRelabel := argValue,
                        m := { st.m with options := st.m.options ++ ["z"] } }
        | _ => .error (.badMntOption argName)
    | "consistency" => .ok st
    | _ => .error (.badMntOption argName)

/-- `GetBindMount`'s token loop: stops at the first failing token, keeping
the state built so far (the Go code returns `newMount` as built at the point
of failure). -/
def bindScanList (env : Env) (workDir : String) : BindScan → List String → BindScan × Option MErr
  | st, [] => (st, none)
  | st, val :: rest =>
    match bindScanStep env workDir st val with
    | .error e => (st, some e)
    | .ok st' => bindScanList env workDir st' rest

/-- Source evaluation of `GetBindMount`: against the effective context
directory when one applies (buildkit parity, `copier.Eval`), otherwise the
host-path legality check (`parse.ValidateVolumeHostDir`) with a mandatory
source. -/
def bindSource (env : Env) (contextDir : String) (m1 : Mount) : Except MErr Mount :=
  if contextDir ≠ "" then
    match env.copierEval contextDir (contextDir ++ "/" ++ m1.source) with
    | .error e => .error (.external e)
    | .ok ev => .ok { m1 with source := ev }
  else if m1.source = "" then .error .badVolSrc
  else
    match env.validateHostDir m1.source with
    | .error e => .error (.external e)
    | .ok _ => .ok m1

/-- The overlay stage of `GetBindMount`: an overlay is synthesized exactly
when an image was mounted on this call's behalf or the mount resolves
read-write. -/
def bindOverlayStage (env : Env) (mountedImage : String) (m3 : Mount)
    (mountLabel tmpDir : String) : (Mount × String × Option MErr) × List Event :=
  if mountedImage ≠ "" ∨ mountIsReadWrite m3 then
    match convertToOverlay env m3 mountLabel tmpDir with
    | (.error e, tr) =>
      (({ typ := "", source := "", destination := "", options := [] }, "", some e), tr)
    | (.ok (m4, overlayDir), tr) => ((m4, overlayDir, none), tr)
  else ((m3, "", none), [])

/-- The part of `GetBindMount` after the image section: default `rbind`,
destination check, source evaluation, option validation and the overlay
conversion.  `contextDir` is the effective context directory (possibly an
image or stage mount point) and `mountedImage` the ID mounted on this
call's behalf (empty if none). -/
def bindFinish (env : Env) (st : BindScan) (m0 : Mount)
    (contextDir mountLabel tmpDir mountedImage : String) :
    (Mount × String × Option MErr) × List Event :=
  let m1 := if ¬ st.bindNonRecursive then { m0 with options := m0.options ++ ["rbind"] } else m0
  if st.setDest = "" then ((m1, "", some .badVolDest), [])
  else
    match bindSource env contextDir m1 with
    | .error e => ((m1, "", some e), [])
    | .ok m2 =>
      match validateVolumeOpts m2.options with
      | .error e => ((m2, "", some e), [])
      | .ok opts => bindOverlayStage env mountedImage { m2 with options := opts } mountLabel tmpDir

/-- `GetBindMount`: parses a single bind mount entry.  Returns the mount,
the ID of the image mounted on this call's behalf (empty unless the call
succeeds after mounting one), the overlay temporary directory used (empty
if none) and the error, plus the event trace; a failure after the image was
mounted appends the deferred unmount event. -/
def GetBindMount (env : Env) (args : List String) (contextDir mountLabel : String)
    (additionalMountPoints : Option (List (String × StageMountDetails)))
    (workDir tmpDir : String) :
    (Mount × String × String × Option MErr) × List Event :=
  match bindScanList env workDir bindInitScan args with
  | (st, some e) => ((st.m, "", "", some e), [])
  | (st, none) =>
    let m0 := if st.mountReadability = "" then
                { st.m with options := st.m.options ++ ["ro"] }
              else st.m
    if st.fromImage ≠ "" then
      let mountPoint :=
        match additionalMountPoints with
        | some l =>
          match l.lookup st.fromImage with
          | some d => d.mountPoint
          | none => ""
        | none => ""
      if mountPoint = "" then
        match env.lookupImage st.fromImage with
        | .error e => ((m0, "", "", some (.external e)), [])
        | .ok imageID =>
          match env.imageMount imageID with
          | .error e => ((m0, "", "", some (.external e)), [])
          | .ok mp =>
            match bindFinish env st m0 mp mountLabel tmpDir imageID with
            | ((m', _, some e), tr) =>
              ((m', "", "", some e), Event.mountImage imageID :: tr ++ [Event.unmountImage imageID])
            | ((m', od, none), tr) =>
              ((m', imageID, od, none), Event.mountImage imageID :: tr)
      else
        match bindFinish env st m0 mountPoint mountLabel tmpDir "" with
        | ((m', _, some e), tr) => ((m', "", "", some e), tr)
        | ((m', od, none), tr) => ((m', "", od, none), tr)
    else
      match bindFinish env st m0 contextDir mountLabel tmpDir "" with
      | ((m', _, some e), tr) => ((m', "", "", some e), tr)
      | ((m', od, none), tr) => ((m', "", od, none), tr)

/-! ## GetCacheMount -/

/-- The mutable locals of `GetCacheMount`'s token scan. -/
structure CacheScan where
  m : Mount
  setDest : Bool
  setShared : Bool
  setReadOnly : Bool
  foundSElinuxLabel : Bool
  fromStage : String
  id : String
  mode : Nat
  uid : Int
  gid : Int
  sharing : String
deriving Repr, DecidableEq

def cacheInitScan : CacheScan :=
  { m := { typ := TypeBind, source := "", destination := "", options := [] },
    setDest := false, setShared := false, setReadOnly := false,
    foundSElinuxLabel := false, fromStage := "", id := "",
    mode := 0o755, uid := 0, gid := 0, sharing := "shared" }

/-- One iteration of `GetCacheMount`'s token loop. -/
def cacheScanStep (env : Env) (workDir : String) (st : CacheScan) (val : String) :
    Except MErr CacheScan :=
  match cutEq val with
  | (argName, argValue, hasArgValue) =>
    match argName with
    | "type" => .ok st
    | "nosuid" | "nodev" | "noexec" =>
      .ok { st with m := { st.m with options := st.m.options ++ [argName] } }
    | "rw" | "readwrite" =>
      .ok { st with m := { st.m with options := st.m.options ++ ["rw"] } }
    | "readonly" | "ro" =>
      .ok { st with m := { st.m with options := st.m.options ++ ["ro"] },
                    setReadOnly := true }
    | "Z" | "z" =>
      .ok { st with m := { st.m with options := st.m.options ++ [argName] },
                    foundSElinuxLabel := true }
    | "shared" | "rshared" | "private" | "rprivate" | "slave" | "rslave" | "U" =>
      .ok { st with m := { st.m with options := st.m.options ++ [argName] },
                    setShared := true }
    | "sharing" => .ok { st with sharing := argValue }
    | "bind-propagation" =>
      if ¬ hasArgValue then .error (.badOptionArg argName)
      else
        match argValue with
        | "shared" | "rshared" | "private" | "rprivate" | "slave" | "rslave" =>
          .ok { st with m := { st.m with options := st.m.options ++ [argValue] } }
        | _ => .error (.badMntOption argName)
    | "id" =>
      if ¬ hasArgValue then .error (.badOptionArg argName)
      else .ok { st with id := argValue }
    | "from" =>
      if ¬ hasArgValue then .error (.badOptionArg argName)
      else .ok { st with fromStage := argValue }
    | "target" | "dst" | "destination" =>
      if ¬ hasArgValue then .error (.badOptionArg argName)
      else
        let targetPath := argValue
        let targetPath' := if ¬ pathIsAbs targetPath then joinPath workDir targetPath else targetPath
        match env.validateCtrDir targetPath' with
        | .error e => .error (.external e)
        | .ok _ =>
          .ok { st with setDest := true,
                        m := { st.m with destination := targetPath' } }
    | "src" | "source" =>
      if ¬ hasArgValue then .error (.badOptionArg argName)
      else .ok { st with m := { st.m with source := argValue } }
    | "mode" =>
      if ¬ hasArgValue then .error (.badOptionArg argName)
      else
        match parseOctal32 argValue with
        | none => .error (.invalidCacheAttr "mode")
        | some v => .ok { st with mode := v }
    | "uid" =>
      if ¬ hasArgValue then .error (.badOptionArg argName)
      else
        match parseAtoi argValue with
        | none => .error (.invalidCacheAttr "uid")
        | some v => .ok { st with uid := v }
    | "gid" =>
      if ¬ hasArgValue then .error (.badOptionArg argName)
      else
        match parseAtoi argValue with
        | none => .error (.invalidCacheAttr "gid")
        | some v => .ok { st with gid := v }
    | _ => .error (.badMntOption argName)

/-- `GetCacheMount`'s token loop, stopping at the first failing token. -/
def cacheScanList (env : Env) (workDir : String) : CacheScan → List String → CacheScan × Option MErr
  | st, [] => (st, none)
  | st, val :: rest =>
    match cacheScanStep env workDir st val with
    | .error e => (st, some e)
    | .ok st' => cacheScanList env workDir st' rest

/-- The non-image stage mount point named by `from=`, or the empty string
when the stage is missing, image-backed, or no map was provided. -/
def stageMountPoint (additionalMountPoints : Option (List (String × StageMountDetails)))
    (name : String) : String :=
  match additionalMountPoints with
  | some l =>
    match l.lookup name with
    | some d => if ¬ d.isImage then d.mountPoint else ""
    | none => ""
  | none => ""

/-- The hashed fixed-length cache directory name: the digest of the explicit
`id` when one was given, otherwise of the mount's destination. -/
def cacheDirID (env : Env) (st : CacheScan) (dest : String) : String :=
  if st.id ≠ "" then env.digest16 st.id else env.digest16 dest

/-- Source resolution of `GetCacheMount`: against a stage's mount point
when `from=` names a non-image stage (the lock-files directory stays empty
on that path), otherwise against the hashed per-user host cache directory.
Returns the updated mount and the `buildahLockFilesDir` value. -/
def cacheSource (env : Env) (st : CacheScan) (m : Mount)
    (additionalMountPoints : Option (List (String × StageMountDetails))) :
    Except MErr (Mount × String) :=
  if st.fromStage ≠ "" then
    if stageMountPoint additionalMountPoints st.fromStage = "" then
      .error (.noStage st.fromStage)
    else
      match env.copierEval (stageMountPoint additionalMountPoints st.fromStage)
          (stageMountPoint additionalMountPoints st.fromStage ++ "/" ++ m.source) with
      | .error e => .error (.external e)
      | .ok ev => .ok ({ m with source := ev }, "")
  else
    match env.mkdirAll (CacheParent env) with
    | .error e => .error (.external ("unable to create build cache directory: " ++ e))
    | .ok _ =>
      match env.mkdirChown (joinPath (CacheParent env) (cacheDirID env st m.destination)) with
      | .error e => .error (.external ("unable to change uid,gid of cache directory: " ++ e))
      | .ok _ =>
        match env.mkdirAll (joinPath (CacheParent env)
            (joinPath BuildahCacheLockfileDir (cacheDirID env st m.destination))) with
        | .error e => .error (.external ("unable to create build cache lockfiles directory: " ++ e))
        | .ok _ =>
          .ok ({ m with source := joinPath (CacheParent env) (cacheDirID env st m.destination) },
               joinPath (CacheParent env)
                 (joinPath BuildahCacheLockfileDir (cacheDirID env st m.destination)))

/-- The option finalization at the end of `GetCacheMount`: default `shared`,
default `rw`, always `bind`, then the shared option validation. -/
def cacheFinalize (st : CacheScan) (m : Mount) : Except MErr Mount :=
  let mA := if ¬ st.setShared then { m with options := m.options ++ ["shared"] } else m
  let mB := if ¬ st.setReadOnly then { mA with options := mA.options ++ ["rw"] } else mA
  let mC := { mB with options := mB.options ++ ["bind"] }
  match validateVolumeOpts mC.options with
  | .error e => .error e
  | .ok opts => .ok { mC with options := opts }

/-- Sharing enforcement of `GetCacheMount`: `locked` acquires the advisory
lock on `buildahLockFilesDir/buildah-cache-lockfile` (the deferred unlock
fires when a later step fails); `shared` does nothing; anything else is the
unrecognized-sharing failure. -/
def cacheSharing (env : Env) (st : CacheScan) (m : Mount) (lockDir : String) :
    (Mount × Option String × Option MErr) × List Event :=
  if st.sharing = "locked" then
    let lockPath := joinPath lockDir BuildahCacheLockfile
    match env.getLockFile lockPath with
    | .error e =>
      ((m, none, some (.external ("unable to acquire lock when sharing mode is locked: " ++ e))), [])
    | .ok _ =>
      match cacheFinalize st m with
      | .error e => ((m, none, some e), [.lockAcquire lockPath, .lockRelease lockPath])
      | .ok m' => ((m', some lockPath, none), [.lockAcquire lockPath])
  else if st.sharing = "shared" then
    match cacheFinalize st m with
    | .error e => ((m, none, some e), [])
    | .ok m' => ((m', none, none), [])
  else
    ((m, none, some (.unrecognizedSharing st.sharing)), [])

/-- The default SELinux shared-content relabel of `GetCacheMount`: add `z`
when enforcement is active, no explicit label option was given, and the
mount does not come from another stage. -/
def cacheSELinux (env : Env) (st : CacheScan) : Mount :=
  if ¬ st.foundSElinuxLabel ∧ env.selinuxEnabled ∧ st.fromStage = "" then
    { st.m with options := st.m.options ++ ["z"] }
  else st.m

/-- `GetCacheMount`: parses a single cache mount entry.  Returns the mount,
the held lock's file path when sharing mode is `locked` (`none` otherwise or
on failure) and the error, plus the event trace. -/
def GetCacheMount (env : Env) (args : List String)
    (additionalMountPoints : Option (List (String × StageMountDetails)))
    (workDir : String) :
    (Mount × Option String × Option MErr) × List Event :=
  match cacheScanList env workDir cacheInitScan args with
  | (st, some e) => ((st.m, none, some e), [])
  | (st, none) =>
    if ¬ st.setDest then ((cacheSELinux env st, none, some .badVolDest), [])
    else
      match cacheSource env st (cacheSELinux env st) additionalMountPoints with
      | .error e => ((cacheSELinux env st, none, some e), [])
      | .ok (m1, lockDir) => cacheSharing env st m1 lockDir

/-! ## GetTmpfsMount -/

/-- The mutable locals of `GetTmpfsMount`'s token scan. -/
structure TmpfsScan where
  m : Mount
  setDest : Bool
deriving Repr, DecidableEq

def tmpfsInitScan : TmpfsScan :=
  { m := { typ := TypeTmpfs, source := TypeTmpfs, destination := "", options := [] },
    setDest := false }

/-- One iteration of `GetTmpfsMount`'s token loop. -/
def tmpfsScanStep (env : Env) (workDir : String) (st : TmpfsScan) (val : String) :
    Except MErr TmpfsScan :=
  match cutEq val with
  | (argName, argValue, hasArgValue) =>
    match argName with
    | "type" => .ok st
    | "ro" | "nosuid" | "nodev" | "noexec" =>
      .ok { st with m := { st.m with options := st.m.options ++ [argName] } }
    | "readonly" =>
      .ok { st with m := { st.m with options := st.m.options ++ ["ro"] } }
    | "tmpcopyup" =>
      .ok { st with m := { st.m with options := st.m.options ++ [argName] } }
    | "tmpfs-mode" =>
      if ¬ hasArgValue then .error (.badOptionArg argName)
      else .ok { st with m := { st.m with options := st.m.options ++ ["mode=" ++ argValue] } }
    | "tmpfs-size" =>
      if ¬ hasArgValue then .error (.badOptionArg argName)
      else .ok { st with m := { st.m with options := st.m.options ++ ["size=" ++ argValue] } }
    | "src" | "source" => .error (.external "source is not supported with tmpfs mounts")
    | "target" | "dst" | "destination" =>
      if ¬ hasArgValue then .error (.badOptionArg argName)
      else
        let targetPath := argValue
        let targetPath' := if ¬ pathIsAbs targetPath then joinPath workDir targetPath else targetPath
        match env.validateCtrDir targetPath' with
        | .error e => .error (.external e)
        | .ok _ =>
          .ok { st with setDest := true,
                        m := { st.m with destination := targetPath' } }
    | _ => .error (.badMntOption argName)

/-- `GetTmpfsMount`'s token loop, stopping at the first failing token. -/
def tmpfsScanList (env : Env) (workDir : String) : TmpfsScan → List String → TmpfsScan × Option MErr
  | st, [] => (st, none)
  | st, val :: rest =>
    match tmpfsScanStep env workDir st val with
    | .error e => (st, some e)
    | .ok st' => tmpfsScanList env workDir st' rest

/-- `GetTmpfsMount`: parses a single tmpfs mount entry (no side resources). -/
def GetTmpfsMount (env : Env) (args : List String) (workDir : String) :
    Mount × Option MErr :=
  match tmpfsScanList env workDir tmpfsInitScan args with
  | (st, some e) => (st.m, some e)
  | (st, none) =>
    if ¬ st.setDest then (st.m, some .badVolDest) else (st.m, none)

/-! ## getMounts, getVolumeMounts, GetVolumes -/

/-- The mutable locals of `getMounts`' batch loop.  Note that `mountType`
lives outside the per-entry loop in the source, so its value carries over
from one entry to the next. -/
structure GmState where
  mountType : String
  finalMounts : List (String × Mount)
  mountedImages : List String
  overlayDirs : List String
  targetLocks : List String
deriving Repr, DecidableEq

def gmInit : GmState :=
  { mountType := TypeBind, finalMounts := [], mountedImages := [],
    overlayDirs := [], targetLocks := [] }

/-- The preliminary scan of `getMounts` for `type=` tokens: later tokens
win, a token that does not split into exactly two `=`-separated fields is
the invalid-syntax failure. -/
def scanTypeTokens : String → List String → Except Unit String
  | mt, [] => .ok mt
  | mt, tok :: rest =>
    if hasPre "type=" tok then
      match splitOnChar '=' tok with
      | [_, v] => scanTypeTokens v rest
      | _ => .error ()
    else scanTypeTokens mt rest

/-- Recording of a mounted image ID in the batch state (when non-empty). -/
def addImage (st : GmState) (image : String) : GmState :=
  if image ≠ "" then { st with mountedImages := st.mountedImages ++ [image] } else st

/-- Recording of an overlay temporary directory in the batch state (when
non-empty). -/
def addOverlay (st : GmState) (overlayDir : String) : GmState :=
  if overlayDir ≠ "" then { st with overlayDirs := st.overlayDirs ++ [overlayDir] } else st

/-- Recording of an acquired lock in the batch state. -/
def addLock (st : GmState) (tl : Option String) : GmState :=
  match tl with
  | some p => { st with targetLocks := st.targetLocks ++ [p] }
  | none => st

/-- The duplicate-destination check followed by insertion into the
destination-keyed map. -/
def addDup (st : GmState) (m : Mount) : GmState × Option MErr :=
  if (st.finalMounts.lookup m.destination).isSome then
    (st, some (.duplicateDest m.destination))
  else
    ({ st with finalMounts := (m.destination, m) :: st.finalMounts }, none)

/-- Processing of one `--mount` string by `getMounts`: token-count check,
`type=` scan, dispatch to the matching resolver, side-resource recording and
the duplicate-destination check. -/
def stepMount (env : Env) (contextDir mountLabel workDir tmpDir : String)
    (st : GmState) (mount : String) : (GmState × Option MErr) × List Event :=
  if (splitOnChar ',' mount).length < 2 then ((st, some (.malformedSpec mount)), [])
  else
    match scanTypeTokens st.mountType (splitOnChar ',' mount) with
    | .error _ => ((st, some (.malformedSpec mount)), [])
    | .ok mt =>
      if mt = TypeBind then
        match GetBindMount env (splitOnChar ',' mount) contextDir mountLabel none workDir tmpDir with
        | ((_, _, _, some e), tr) => (({ st with mountType := mt }, some e), Event.dispatch mt :: tr)
        | ((m, image, overlayDir, none), tr) =>
          (addDup (addOverlay (addImage { st with mountType := mt } image) overlayDir) m,
           Event.dispatch mt :: tr ++ [Event.resolvedDest m.destination])
      else if mt = TypeCache then
        match GetCacheMount env (splitOnChar ',' mount) none workDir with
        | ((_, _, some e), tr) => (({ st with mountType := mt }, some e), Event.dispatch mt :: tr)
        | ((m, tl, none), tr) =>
          (addDup (addLock { st with mountType := mt } tl) m,
           Event.dispatch mt :: tr ++ [Event.resolvedDest m.destination])
      else if mt = TypeTmpfs then
        match GetTmpfsMount env (splitOnChar ',' mount) workDir with
        | (_, some e) => (({ st with mountType := mt }, some e), [Event.dispatch mt])
        | (m, none) =>
          (addDup { st with mountType := mt } m,
           [Event.dispatch mt, Event.resolvedDest m.destination])
      else (({ st with mountType := mt }, some (.invalidFsType mt)), [])

/-- The batch loop of `getMounts`. -/
def getMountsLoop (env : Env) (contextDir mountLabel workDir tmpDir : String) :
    GmState → List String → (GmState × Option MErr) × List Event
  | st, [] => ((st, none), [])
  | st, mnt :: rest =>
    match stepMount env contextDir mountLabel workDir tmpDir st mnt with
    | ((st', some e), tr) => ((st', some e), tr)
    | ((st', none), tr) =>
      match getMountsLoop env contextDir mountLabel workDir tmpDir st' rest with
      | ((st'', e?), tr') => ((st'', e?), tr ++ tr')

/-- The deferred cleanup of `getMounts`/`GetVolumes`: remove every recorded
overlay directory, unmount every recorded image, release every recorded
lock (in that order; failures are logged and swallowed by the source). -/
def cleanupEvents (st : GmState) : List Event :=
  st.overlayDirs.map Event.removeOverlay ++
  st.mountedImages.map Event.unmountImage ++
  st.targetLocks.map Event.lockRelease

/-- `getMounts`: resolves the `--mount` strings, with the deferred
all-or-nothing rollback on failure. -/
def getMounts (env : Env) (contextDir mountLabel workDir tmpDir : String)
    (mounts : List String) : Except MErr GmState × List Event :=
  match getMountsLoop env contextDir mountLabel workDir tmpDir gmInit mounts with
  | ((st, none), tr) => (.ok st, tr)
  | ((st, some e), tr) => (.error e, tr ++ cleanupEvents st)

/-- `getVolumeMounts`' loop: parse each `--volume` string, reject duplicate
destinations among the volumes. -/
def getVolumeMountsLoop (env : Env) :
    List (String × Mount) → List String → (List (String × Mount) × Option MErr) × List Event
  | fm, [] => ((fm, none), [])
  | fm, v :: rest =>
    match env.parseVolume v with
    | .error e => ((fm, some (.external e)), [])
    | .ok vm =>
      if (fm.lookup vm.destination).isSome then
        ((fm, some (.duplicateDest vm.destination)), [Event.resolvedDest vm.destination])
      else
        match getVolumeMountsLoop env ((vm.destination, vm) :: fm) rest with
        | ((fm', e?), tr') => ((fm', e?), Event.resolvedDest vm.destination :: tr')

/-- The merge loop of `GetVolumes`: each volume mount's destination must not
collide with an already unified destination. -/
def mergeVolumes : List (String × Mount) → List (String × Mount) → Except MErr (List (String × Mount))
  | unified, [] => .ok unified
  | unified, (d, m) :: rest =>
    if (unified.lookup d).isSome then .error (.duplicateDest d)
    else mergeVolumes ((d, m) :: unified) rest

/-- `GetVolumes`: resolves the `--mount` strings, then the `--volume`
strings, merges them into one destination-keyed plan, and on any failure
after `getMounts` succeeded replays the deferred rollback of every side
resource `getMounts` acquired.  Returns the mounts together with the
mounted image IDs, overlay directories and lock paths the caller must
release. -/
def GetVolumes (env : Env) (contextDir mountLabel workDir tmpDir : String)
    (volumes mounts : List String) :
    Except MErr (List Mount × List String × List String × List String) × List Event :=
  match getMounts env contextDir mountLabel workDir tmpDir mounts with
  | (.error e, tr) => (.error e, tr)
  | (.ok st, tr) =>
    match getVolumeMountsLoop env [] volumes with
    | ((_, some e), trv) => (.error e, tr ++ trv ++ cleanupEvents st)
    | ((vm, none), trv) =>
      match mergeVolumes st.finalMounts vm with
      | .error e => (.error e, tr ++ trv ++ cleanupEvents st)
      | .ok unified =>
        (.ok (unified.map Prod.snd, st.mountedImages, st.overlayDirs, st.targetLocks),
         tr ++ trv)

/-! ## Trace accounting -/

/-- Number of occurrences of one event in a trace. -/
def cnt (e : Event) (tr : List Event) : Nat := tr.count e

/-- A trace is balanced when every image mount has a matching unmount, every
overlay creation a matching removal, and every lock acquisition a matching
release. -/
def balancedTrace (tr : List Event) : Prop :=
  (∀ i, cnt (.mountImage i) tr = cnt (.unmountImage i) tr) ∧
  (∀ o, cnt (.createOverlay o) tr = cnt (.removeOverlay o) tr) ∧
  (∀ p, cnt (.lockAcquire p) tr = cnt (.lockRelease p) tr)

/-- Number of entries of a destination-keyed association list carrying a
given destination. -/
def keyCount (l : List (String × Mount)) (d : String) : Nat :=
  (l.map Prod.fst).count d

/-! ## Auxiliary definitions for the proofs -/

/-- The option list assembled by GetBindMount before validation. -/
def bindAssembled (st : BindScan) (m0 : Mount) : List String :=
  if ¬ st.bindNonRecursive then m0.options ++ ["rbind"] else m0.options

/-- Image accounting across one step or loop: mount events plus previously
recorded images line up with unmount events plus currently recorded images. -/
def imgDelta (st st' : GmState) (tr : List Event) : Prop :=
  ∀ i, cnt (.mountImage i) tr + st.mountedImages.count i =
       cnt (.unmountImage i) tr + st'.mountedImages.count i

/-- Overlay-directory accounting across one step or loop. -/
def ovlDelta (st st' : GmState) (tr : List Event) : Prop :=
  ∀ o, cnt (.createOverlay o) tr + st.overlayDirs.count o =
       cnt (.removeOverlay o) tr + st'.overlayDirs.count o

/-- Lock accounting across one step or loop. -/
def lockDelta (st st' : GmState) (tr : List Event) : Prop :=
  ∀ p, cnt (.lockAcquire p) tr + st.targetLocks.count p =
       cnt (.lockRelease p) tr + st'.targetLocks.count p

/-- A trace that touches no side resource at all. -/
def resourceFree (tr : List Event) : Prop :=
  (∀ i, cnt (.mountImage i) tr = 0) ∧ (∀ i, cnt (.unmountImage i) tr = 0) ∧
  (∀ o, cnt (.createOverlay o) tr = 0) ∧ (∀ o, cnt (.removeOverlay o) tr = 0) ∧
  (∀ p, cnt (.lockAcquire p) tr = 0) ∧ (∀ p, cnt (.lockRelease p) tr = 0)

/-- The readability keys of the bind-mount option scan. -/
def readabilityKeys : List String := ["rw", "readwrite", "ro", "readonly"]

/-- The keys whose tokens add an SELinux label-change option. -/
def labelTokKeys : List String := ["Z", "z", "relabel"]

/-- A concrete well-formed environment for witnesses: every collaborator
succeeds, the digest oracle is the identity function. -/
def sampleEnv : Env :=
  { tempDir := "/var/tmp", rootlessUID := 0, selinuxEnabled := false,
    digest16 := fun s => s,
    validateCtrDir := fun _ => .ok (), validateHostDir := fun _ => .ok (),
    copierEval := fun _ p => .ok p,
    lookupImage := fun n => .ok ("img-" ++ n), imageMount := fun _ => .ok "/imgmnt",
    overlayTempDir := fun _ => .ok "/overlay/TMP", statIsDir := fun _ => .ok true,
    overlayMnt := fun _ lower dest _ =>
      .ok { typ := "bind", source := lower, destination := dest, options := [] },
    mkdirAll := fun _ => .ok (), mkdirChown := fun _ => .ok (),
    getLockFile := fun _ => .ok (),
    parseVolume := fun v =>
      if v = "vol1" then .ok { typ := "bind", source := "/s", destination := "/a", options := [] }
      else .error "parse" }

/-- A variant whose path evaluator fails (to force a bind failure after an
image mount). -/
def failEvalEnv : Env := { sampleEnv with copierEval := fun _ _ => .error "evalfail" }

/-- Whether an event is a resolver dispatch. -/
def isDispatch (e : Event) : Bool :=
  match e with
  | .dispatch _ => true
  | _ => false

/-- An environment whose `stat` reports a non-directory (single-file) source. -/
def fileEnv : Env := { sampleEnv with statIsDir := fun _ => .ok false }

/-! ## Basic lemmas -/

theorem strEqOfData (s t : String) (h : s.data = t.data) : s = t := by
  cases s; cases t; exact congrArg String.mk (by simpa using h)

theorem cnt_nil (e : Event) : cnt e [] = 0 := rfl

theorem cnt_cons (e f : Event) (tr : List Event) :
    cnt e (f :: tr) = cnt e tr + if f = e then 1 else 0 := by
  simp [cnt, List.count_cons]

theorem cnt_append (e : Event) (tr1 tr2 : List Event) :
    cnt e (tr1 ++ tr2) = cnt e tr1 + cnt e tr2 := by
  simp [cnt, List.count_append]

theorem lookup_keyCount (l : List (String × Mount)) (d : String) :
    (l.lookup d).isSome = true ↔ 0 < keyCount l d := by
  induction l with
  | nil => simp [List.lookup, keyCount]
  | cons h t ih =>
    obtain ⟨k, v⟩ := h
    by_cases hk : d = k
    · subst hk; simp [List.lookup, keyCount, List.count_cons]
    · have hbk : (d == k) = false := beq_false_of_ne hk
      have hkd : ¬ k = d := Ne.symm hk
      simp [List.lookup, keyCount, hbk, List.count_cons, ih, hkd]

theorem twoMemCountP {α : Type} (l : List α) (a b : α) (p : α → Bool)
    (ha : a ∈ l) (hb : b ∈ l) (hab : a ≠ b) (hpa : p a) (hpb : p b) :
    2 ≤ l.countP p := by
  induction l with
  | nil => cases ha
  | cons h t ih =>
    rcases List.mem_cons.mp ha with rfl | hat
    · have hbt : b ∈ t := by
        rcases List.mem_cons.mp hb with rfl | hbt
        · exact absurd rfl hab
        · exact hbt
      have h1 : 0 < t.countP p := List.countP_pos_iff.mpr ⟨b, hbt, hpb⟩
      simp only [List.countP_cons, hpa, if_pos]
      omega
    · rcases List.mem_cons.mp hb with rfl | hbt
      · have h1 : 0 < t.countP p := List.countP_pos_iff.mpr ⟨a, hat, hpa⟩
        simp only [List.countP_cons, hpb, if_pos]
        omega
      · have := ih hat hbt
        simp only [List.countP_cons]
        omega

theorem validate_ok (l l' : List String) (h : validateVolumeOpts l = .ok l') :
    l' = l ∧ l.countP (fun o => isLabelChangeOpt o) ≤ 1 := by
  unfold validateVolumeOpts at h
  split at h
  · split at h
    · refine ⟨?_, by assumption⟩
      injection h with h2
      exact h2.symm
    · cases h
  · cases h

theorem joinPath_empty_left (b : String) : joinPath "" b = b := by
  simp [joinPath]

theorem joinPath_right_cancel (c x y : String) (hc : c ≠ "")
    (h : joinPath c x = joinPath c y) : x = y := by
  unfold joinPath at h
  rw [if_neg hc, if_neg hc] at h
  by_cases hx : x = "" <;> by_cases hy : y = ""
  · rw [hx, hy]
  · rw [if_pos hx, if_neg hy] at h
    have hd := congrArg String.data h
    simp only [String.data_append] at hd
    have hl := congrArg List.length hd
    simp only [List.length_append] at hl
    have h1 : ("/" : String).data.length = 1 := by decide
    rw [h1] at hl
    omega
  · rw [if_neg hx, if_pos hy] at h
    have hd := congrArg String.data h
    simp only [String.data_append] at hd
    have hl := congrArg List.length hd
    simp only [List.length_append] at hl
    have h1 : ("/" : String).data.length = 1 := by decide
    rw [h1] at hl
    omega
  · rw [if_neg hx, if_neg hy] at h
    have hd := congrArg String.data h
    simp only [String.data_append, List.append_assoc] at hd
    exact strEqOfData x y (List.append_cancel_left (List.append_cancel_left hd))

/-! ## Shape lemmas for the resolvers -/

theorem convOk (env : Env) (m : Mount) (lbl t : String) (m2 : Mount) (od : String) (tr : List Event)
    (h : convertToOverlay env m lbl t = (.ok (m2, od), tr)) :
    env.overlayTempDir t = .ok od ∧ tr = [.createOverlay od] := by
  unfold convertToOverlay at h
  split at h
  · injection h with h1 h2; injection h1
  · split at h
    · injection h with h1 h2; injection h1
    · split at h
      · injection h with h1 h2; injection h1
      · injection h with h1 h2
        injection h1 with h3
        injection h3 with h4 h5
        subst h5 h2
        exact ⟨by assumption, rfl⟩
    · split at h
      · injection h with h1 h2; injection h1
      · split at h
        · injection h with h1 h2; injection h1
        · injection h with h1 h2
          injection h1 with h3
          injection h3 with h4 h5
          subst h5 h2
          exact ⟨by assumption, rfl⟩

theorem convErr (env : Env) (m : Mount) (lbl t : String) (e : MErr) (tr : List Event)
    (h : convertToOverlay env m lbl t = (.error e, tr)) :
    tr = [] ∨ ∃ d, env.overlayTempDir t = .ok d ∧
      (tr = [.createOverlay d] ∨ tr = [.createOverlay d, .removeOverlay d]) := by
  unfold convertToOverlay at h
  split at h
  · injection h with h1 h2; exact Or.inl h2.symm
  · split at h
    · injection h with h1 h2
      exact Or.inr ⟨_, by assumption, Or.inl h2.symm⟩
    · split at h
      · injection h with h1 h2
        exact Or.inr ⟨_, by assumption, Or.inl h2.symm⟩
      · injection h with h1 h2; injection h1
    · split at h
      · injection h with h1 h2
        exact Or.inr ⟨_, by assumption, Or.inl h2.symm⟩
      · split at h
        · injection h with h1 h2
          exact Or.inr ⟨_, by assumption, Or.inr h2.symm⟩
        · injection h with h1 h2; injection h1

theorem mIRW_congr (m m2 : Mount) (h : m.options = m2.options) :
    mountIsReadWrite m = mountIsReadWrite m2 := by
  unfold mountIsReadWrite; rw [h]

theorem bindSource_ok (env : Env) (cd : String) (m1 m2 : Mount)
    (h : bindSource env cd m1 = .ok m2) :
    m2.options = m1.options ∧ m2.destination = m1.destination := by
  unfold bindSource at h
  split at h
  · split at h
    · injection h
    · injection h with h1; subst h1; exact ⟨rfl, rfl⟩
  · split at h
    · injection h
    · split at h
      · injection h
      · injection h with h1; subst h1; exact ⟨rfl, rfl⟩

theorem bf_ok (env : Env) (st : BindScan) (m0 : Mount) (cd lbl t img : String)
    (m' : Mount) (od : String) (tr : List Event)
    (h : bindFinish env st m0 cd lbl t img = ((m', od, none), tr)) :
    validateVolumeOpts (bindAssembled st m0) = .ok (bindAssembled st m0) ∧
    ((img = "" ∧ mountIsReadWrite { m0 with options := bindAssembled st m0 } = false ∧
        od = "" ∧ tr = [] ∧ m'.options = bindAssembled st m0 ∧
        m'.destination = m0.destination)
     ∨ ((img ≠ "" ∨ mountIsReadWrite { m0 with options := bindAssembled st m0 } = true) ∧
        env.overlayTempDir t = .ok od ∧ tr = [.createOverlay od])) := by
  unfold bindFinish at h
  dsimp only at h
  split at h
  · injection h with h1 h2
    injection h1 with h3 h4
    injection h4 with h5 h6
    injection h6
  · split at h
    · injection h with h1 h2
      injection h1 with h3 h4
      injection h4 with h5 h6
      injection h6
    · rename_i m2 hsrc
      obtain ⟨hopt, hdest⟩ := bindSource_ok env cd _ m2 hsrc
      split at h
      · injection h with h1 h2
        injection h1 with h3 h4
        injection h4 with h5 h6
        injection h6
      · rename_i opts hval
        have haux : (if ¬ st.bindNonRecursive then
            { m0 with options := m0.options ++ ["rbind"] } else m0).options =
            bindAssembled st m0 := by
          unfold bindAssembled; split <;> rfl
        have hauxd : (if ¬ st.bindNonRecursive then
            { m0 with options := m0.options ++ ["rbind"] } else m0).destination =
            m0.destination := by
          split <;> rfl
        obtain ⟨hopts_eq, _⟩ := validate_ok _ _ hval
        have hval2 : validateVolumeOpts (bindAssembled st m0) = .ok (bindAssembled st m0) := by
          rw [← haux, ← hopt, hval, hopts_eq]
        refine ⟨hval2, ?_⟩
        unfold bindOverlayStage at h
        split at h
        · rename_i hcond
          split at h
          · injection h with h1 h2
            injection h1 with h3 h4
            injection h4 with h5 h6
            injection h6
          · rename_i m4 od2 tr2 hconv
            injection h with h1 h2
            injection h1 with h3 h4
            injection h4 with h5 h6
            subst h3 h5 h2
            obtain ⟨ho, htr⟩ := convOk _ _ _ _ _ _ _ hconv
            refine Or.inr ⟨?_, ho, htr⟩
            rcases hcond with hc | hc
            · exact Or.inl hc
            · refine Or.inr ?_
              rw [mIRW_congr { m0 with options := bindAssembled st m0 }
                { m2 with options := opts } (by dsimp only; rw [hopts_eq, hopt, haux])]
              exact hc
        · rename_i hcond
          push_neg at hcond
          obtain ⟨himg, hrw⟩ := hcond
          injection h with h1 h2
          injection h1 with h3 h4
          injection h4 with h5 h6
          subst h3 h5 h2
          refine Or.inl ⟨himg, ?_, rfl, rfl, ?_, ?_⟩
          · rw [mIRW_congr { m0 with options := bindAssembled st m0 }
              { m2 with options := opts } (by dsimp only; rw [hopts_eq, hopt, haux])]
            simpa using hrw
          · dsimp only; rw [hopts_eq, hopt, haux]
          · dsimp only; rw [hdest, hauxd]

theorem bf_err (env : Env) (st : BindScan) (m0 : Mount) (cd lbl t img : String)
    (m' : Mount) (s : String) (e : MErr) (tr : List Event)
    (h : bindFinish env st m0 cd lbl t img = ((m', s, some e), tr)) :
    s = "" ∧ (tr = [] ∨ ∃ d, env.overlayTempDir t = .ok d ∧
      (tr = [.createOverlay d] ∨ tr = [.createOverlay d, .removeOverlay d])) := by
  unfold bindFinish at h
  dsimp only at h
  split at h
  · injection h with h1 h2
    injection h1 with h3 h4
    injection h4 with h5 h6
    exact ⟨h5.symm, Or.inl h2.symm⟩
  · split at h
    · injection h with h1 h2
      injection h1 with h3 h4
      injection h4 with h5 h6
      exact ⟨h5.symm, Or.inl h2.symm⟩
    · split at h
      · injection h with h1 h2
        injection h1 with h3 h4
        injection h4 with h5 h6
        exact ⟨h5.symm, Or.inl h2.symm⟩
      · unfold bindOverlayStage at h
        split at h
        · split at h
          · rename_i e2 tr2 hconv
            injection h with h1 h2
            injection h1 with h3 h4
            injection h4 with h5 h6
            subst h5 h2
            exact ⟨rfl, convErr _ _ _ _ _ _ hconv⟩
          · injection h with h1 h2
            injection h1 with h3 h4
            injection h4 with h5 h6
            injection h6
        · injection h with h1 h2
          injection h1 with h3 h4
          injection h4 with h5 h6
          injection h6

theorem bindShape_err (env : Env) (args : List String) (ctx lbl : String)
    (addl : Option (List (String × StageMountDetails))) (w t : String)
    (m : Mount) (img od : String) (e : MErr) (tr : List Event)
    (h : GetBindMount env args ctx lbl addl w t = ((m, img, od, some e), tr)) :
    img = "" ∧ od = "" ∧
    (tr = []
     ∨ (∃ d, tr = [.createOverlay d] ∨ tr = [.createOverlay d, .removeOverlay d])
     ∨ (∃ i, tr = [.mountImage i, .unmountImage i]
          ∨ (∃ d, tr = [.mountImage i, .createOverlay d, .unmountImage i]
                 ∨ tr = [.mountImage i, .createOverlay d, .removeOverlay d, .unmountImage i]))) := by
  unfold GetBindMount at h
  split at h
  · simp only [Prod.mk.injEq] at h
    obtain ⟨⟨hm, himg, hod, he⟩, htr⟩ := h
    exact ⟨himg.symm, hod.symm, Or.inl htr.symm⟩
  · dsimp only at h
    split at h
    · -- fromImage ≠ ""
      split at h
      · -- mountPoint = "", try mounting the image
        split at h
        · -- lookupImage error
          simp only [Prod.mk.injEq] at h
          obtain ⟨⟨hm, himg, hod, he⟩, htr⟩ := h
          exact ⟨himg.symm, hod.symm, Or.inl htr.symm⟩
        · split at h
          · -- imageMount error
            simp only [Prod.mk.injEq] at h
            obtain ⟨⟨hm, himg, hod, he⟩, htr⟩ := h
            exact ⟨himg.symm, hod.symm, Or.inl htr.symm⟩
          · -- image mounted, bindFinish runs
            rename_i sc1 imageID hlook sc2 mp hmnt
            split at h
            · rename_i m2 od2 e2 tr2 hbf
              simp only [Prod.mk.injEq] at h
              obtain ⟨⟨hm, himg, hod, he⟩, htr⟩ := h
              obtain ⟨hs, hshape⟩ := bf_err _ _ _ _ _ _ _ _ _ _ _ hbf
              refine ⟨himg.symm, hod.symm, Or.inr (Or.inr ⟨imageID, ?_⟩)⟩
              rcases hshape with h0 | ⟨d, hd, h1 | h1⟩
              · subst h0; exact Or.inl htr.symm
              · subst h1; exact Or.inr ⟨d, Or.inl htr.symm⟩
              · subst h1; exact Or.inr ⟨d, Or.inr htr.symm⟩
            · simp at h
      · -- stage mount point found
        split at h
        · rename_i m2 od2 e2 tr2 hbf
          simp only [Prod.mk.injEq] at h
          obtain ⟨⟨hm, himg, hod, he⟩, htr⟩ := h
          obtain ⟨hs, hshape⟩ := bf_err _ _ _ _ _ _ _ _ _ _ _ hbf
          refine ⟨himg.symm, hod.symm, ?_⟩
          rcases hshape with h0 | ⟨d, hd, h1 | h1⟩
          · subst h0; exact Or.inl htr.symm
          · subst h1; exact Or.inr (Or.inl ⟨d, Or.inl htr.symm⟩)
          · subst h1; exact Or.inr (Or.inl ⟨d, Or.inr htr.symm⟩)
        · simp at h
    · -- no from image
      split at h
      · rename_i m2 od2 e2 tr2 hbf
        simp only [Prod.mk.injEq] at h
        obtain ⟨⟨hm, himg, hod, he⟩, htr⟩ := h
        obtain ⟨hs, hshape⟩ := bf_err _ _ _ _ _ _ _ _ _ _ _ hbf
        refine ⟨himg.symm, hod.symm, ?_⟩
        rcases hshape with h0 | ⟨d, hd, h1 | h1⟩
        · subst h0; exact Or.inl htr.symm
        · subst h1; exact Or.inr (Or.inl ⟨d, Or.inl htr.symm⟩)
        · subst h1; exact Or.inr (Or.inl ⟨d, Or.inr htr.symm⟩)
      · simp at h

theorem bindShape_ok (env : Env) (hw : EnvWF env) (args : List String) (ctx lbl : String)
    (addl : Option (List (String × StageMountDetails))) (w t : String)
    (m : Mount) (img od : String) (tr : List Event)
    (h : GetBindMount env args ctx lbl addl w t = ((m, img, od, none), tr)) :
    (img = "" ∧ od = "" ∧ tr = [])
    ∨ (img = "" ∧ od ≠ "" ∧ tr = [.createOverlay od])
    ∨ (img ≠ "" ∧ od ≠ "" ∧ tr = [.mountImage img, .createOverlay od]) := by
  unfold GetBindMount at h
  split at h
  · simp at h
  · dsimp only at h
    split at h
    · split at h
      · split at h
        · simp at h
        · split at h
          · simp at h
          · rename_i sc1 imageID hlook sc2 mp hmnt
            split at h
            · simp at h
            · rename_i m2 od2 tr2 hbf
              simp only [Prod.mk.injEq] at h
              obtain ⟨⟨hm, himg, hod, _⟩, htr⟩ := h
              obtain ⟨hval, hshape⟩ := bf_ok _ _ _ _ _ _ _ _ _ _ hbf
              rcases hshape with ⟨hie, _⟩ | ⟨_, hovl, htr2⟩
              · exact absurd hie (hw.lookup_ne _ _ hlook)
              · refine Or.inr (Or.inr ⟨?_, ?_, ?_⟩)
                · rw [← himg]; exact hw.lookup_ne _ _ hlook
                · rw [← hod]; exact hw.overlay_ne _ _ hovl
                · rw [← htr, htr2, ← himg, ← hod]
      · split at h
        · simp at h
        · rename_i m2 od2 tr2 hbf
          simp only [Prod.mk.injEq] at h
          obtain ⟨⟨hm, himg, hod, _⟩, htr⟩ := h
          obtain ⟨hval, hshape⟩ := bf_ok _ _ _ _ _ _ _ _ _ _ hbf
          rcases hshape with ⟨hie, hrw, hode, htre, _⟩ | ⟨_, hovl, htr2⟩
          · exact Or.inl ⟨himg.symm, by rw [← hod, hode], by rw [← htr, htre]⟩
          · refine Or.inr (Or.inl ⟨himg.symm, ?_, ?_⟩)
            · rw [← hod]; exact hw.overlay_ne _ _ hovl
            · rw [← htr, htr2, ← hod]
    · split at h
      · simp at h
      · rename_i m2 od2 tr2 hbf
        simp only [Prod.mk.injEq] at h
        obtain ⟨⟨hm, himg, hod, _⟩, htr⟩ := h
        obtain ⟨hval, hshape⟩ := bf_ok _ _ _ _ _ _ _ _ _ _ hbf
        rcases hshape with ⟨hie, hrw, hode, htre, _⟩ | ⟨_, hovl, htr2⟩
        · exact Or.inl ⟨himg.symm, by rw [← hod, hode], by rw [← htr, htre]⟩
        · refine Or.inr (Or.inl ⟨himg.symm, ?_, ?_⟩)
          · rw [← hod]; exact hw.overlay_ne _ _ hovl
          · rw [← htr, htr2, ← hod]

theorem cacheSharing_ok (env : Env) (st : CacheScan) (m : Mount) (lockDir : String)
    (m' : Mount) (l : Option String) (tr : List Event)
    (h : cacheSharing env st m lockDir = ((m', l, none), tr)) :
    (l = none ∧ tr = []) ∨ (∃ p, l = some p ∧ tr = [.lockAcquire p]) := by
  unfold cacheSharing at h
  split at h
  · dsimp only at h
    split at h
    · simp at h
    · split at h
      · simp at h
      · simp only [Prod.mk.injEq] at h
        obtain ⟨⟨hm, hl, _⟩, htr⟩ := h
        exact Or.inr ⟨_, hl.symm, htr.symm⟩
  · split at h
    · split at h
      · simp at h
      · simp only [Prod.mk.injEq] at h
        obtain ⟨⟨hm, hl, _⟩, htr⟩ := h
        exact Or.inl ⟨hl.symm, htr.symm⟩
    · simp at h

theorem cacheSharing_err (env : Env) (st : CacheScan) (m : Mount) (lockDir : String)
    (m' : Mount) (l : Option String) (e : MErr) (tr : List Event)
    (h : cacheSharing env st m lockDir = ((m', l, some e), tr)) :
    l = none ∧ (tr = [] ∨ ∃ p, tr = [.lockAcquire p, .lockRelease p]) := by
  unfold cacheSharing at h
  split at h
  · dsimp only at h
    split at h
    · simp only [Prod.mk.injEq] at h
      obtain ⟨⟨hm, hl, _⟩, htr⟩ := h
      exact ⟨hl.symm, Or.inl htr.symm⟩
    · split at h
      · simp only [Prod.mk.injEq] at h
        obtain ⟨⟨hm, hl, _⟩, htr⟩ := h
        exact ⟨hl.symm, Or.inr ⟨_, htr.symm⟩⟩
      · simp at h
  · split at h
    · split at h
      · simp only [Prod.mk.injEq] at h
        obtain ⟨⟨hm, hl, _⟩, htr⟩ := h
        exact ⟨hl.symm, Or.inl htr.symm⟩
      · simp at h
    · simp only [Prod.mk.injEq] at h
      obtain ⟨⟨hm, hl, _⟩, htr⟩ := h
      exact ⟨hl.symm, Or.inl htr.symm⟩

theorem cacheShape_ok (env : Env) (args : List String)
    (addl : Option (List (String × StageMountDetails))) (w : String)
    (m : Mount) (l : Option String) (tr : List Event)
    (h : GetCacheMount env args addl w = ((m, l, none), tr)) :
    (l = none ∧ tr = []) ∨ (∃ p, l = some p ∧ tr = [.lockAcquire p]) := by
  unfold GetCacheMount at h
  split at h
  · simp at h
  · split at h
    · simp at h
    · split at h
      · simp at h
      · exact cacheSharing_ok _ _ _ _ _ _ _ h

theorem cacheShape_err (env : Env) (args : List String)
    (addl : Option (List (String × StageMountDetails))) (w : String)
    (m : Mount) (l : Option String) (e : MErr) (tr : List Event)
    (h : GetCacheMount env args addl w = ((m, l, some e), tr)) :
    l = none ∧ (tr = [] ∨ ∃ p, tr = [.lockAcquire p, .lockRelease p]) := by
  unfold GetCacheMount at h
  split at h
  · simp only [Prod.mk.injEq] at h
    obtain ⟨⟨hm, hl, _⟩, htr⟩ := h
    exact ⟨hl.symm, Or.inl htr.symm⟩
  · split at h
    · simp only [Prod.mk.injEq] at h
      obtain ⟨⟨hm, hl, _⟩, htr⟩ := h
      exact ⟨hl.symm, Or.inl htr.symm⟩
    · split at h
      · simp only [Prod.mk.injEq] at h
        obtain ⟨⟨hm, hl, _⟩, htr⟩ := h
        exact ⟨hl.symm, Or.inl htr.symm⟩
      · exact cacheSharing_err _ _ _ _ _ _ _ _ h

/-! ## Batch accounting -/

theorem imgDelta_comp (st st' st'' : GmState) (tr tr' : List Event)
    (h1 : imgDelta st st' tr) (h2 : imgDelta st' st'' tr') :
    imgDelta st st'' (tr ++ tr') := by
  intro i
  have e1 := h1 i
  have e2 := h2 i
  simp only [cnt_append]
  omega

theorem ovlDelta_comp (st st' st'' : GmState) (tr tr' : List Event)
    (h1 : ovlDelta st st' tr) (h2 : ovlDelta st' st'' tr') :
    ovlDelta st st'' (tr ++ tr') := by
  intro o
  have e1 := h1 o
  have e2 := h2 o
  simp only [cnt_append]
  omega

theorem lockDelta_comp (st st' st'' : GmState) (tr tr' : List Event)
    (h1 : lockDelta st st' tr) (h2 : lockDelta st' st'' tr') :
    lockDelta st st'' (tr ++ tr') := by
  intro p
  have e1 := h1 p
  have e2 := h2 p
  simp only [cnt_append]
  omega

theorem addImage_fields (st : GmState) (i : String) :
    (addImage st i).finalMounts = st.finalMounts ∧
    (addImage st i).overlayDirs = st.overlayDirs ∧
    (addImage st i).targetLocks = st.targetLocks ∧
    (∀ j, (addImage st i).mountedImages.count j =
      st.mountedImages.count j + if i ≠ "" ∧ i = j then 1 else 0) := by
  unfold addImage
  split
  · rename_i hne
    refine ⟨rfl, rfl, rfl, fun j => ?_⟩
    by_cases hij : i = j
    · subst hij; simp [List.count_append, hne]
    · simp [List.count_append, hij, List.count_singleton', hne]
  · rename_i hne
    refine ⟨rfl, rfl, rfl, fun j => ?_⟩
    simp at hne
    simp [hne]

theorem addOverlay_fields (st : GmState) (o : String) :
    (addOverlay st o).finalMounts = st.finalMounts ∧
    (addOverlay st o).mountedImages = st.mountedImages ∧
    (addOverlay st o).targetLocks = st.targetLocks ∧
    (∀ j, (addOverlay st o).overlayDirs.count j =
      st.overlayDirs.count j + if o ≠ "" ∧ o = j then 1 else 0) := by
  unfold addOverlay
  split
  · rename_i hne
    refine ⟨rfl, rfl, rfl, fun j => ?_⟩
    by_cases hij : o = j
    · subst hij; simp [List.count_append, hne]
    · simp [List.count_append, hij, List.count_singleton', hne]
  · rename_i hne
    refine ⟨rfl, rfl, rfl, fun j => ?_⟩
    simp at hne
    simp [hne]

theorem addLock_fields (st : GmState) (tl : Option String) :
    (addLock st tl).finalMounts = st.finalMounts ∧
    (addLock st tl).mountedImages = st.mountedImages ∧
    (addLock st tl).overlayDirs = st.overlayDirs ∧
    (∀ j, (addLock st tl).targetLocks.count j =
      st.targetLocks.count j + if tl = some j then 1 else 0) := by
  unfold addLock
  match tl with
  | some p =>
    refine ⟨rfl, rfl, rfl, fun j => ?_⟩
    by_cases hij : p = j
    · subst hij; simp [List.count_append]
    · simp [List.count_append, List.count_singleton', hij]
  | none =>
    exact ⟨rfl, rfl, rfl, fun j => by simp⟩

theorem addDup_ok (st st' : GmState) (m : Mount)
    (h : addDup st m = (st', none)) :
    st'.finalMounts = (m.destination, m) :: st.finalMounts ∧
    keyCount st.finalMounts m.destination = 0 ∧
    st'.mountedImages = st.mountedImages ∧
    st'.overlayDirs = st.overlayDirs ∧
    st'.targetLocks = st.targetLocks := by
  unfold addDup at h
  split at h
  · simp at h
  · rename_i hdup
    simp only [Prod.mk.injEq] at h
    obtain ⟨hst, _⟩ := h
    subst hst
    have hk := lookup_keyCount st.finalMounts m.destination
    refine ⟨rfl, ?_, rfl, rfl, rfl⟩
    simp at hdup
    simp [hdup] at hk
    omega

theorem addDup_err (st st' : GmState) (m : Mount) (e : MErr)
    (h : addDup st m = (st', some e)) :
    st' = st ∧ e = .duplicateDest m.destination ∧
    0 < keyCount st.finalMounts m.destination := by
  unfold addDup at h
  split at h
  · rename_i hdup
    simp only [Prod.mk.injEq] at h
    obtain ⟨hst, he⟩ := h
    injection he with he
    exact ⟨hst.symm, he.symm,
      (lookup_keyCount st.finalMounts m.destination).mp hdup⟩
  · simp at h

theorem step_ok (env : Env) (hw : EnvWF env) (cd lbl w t : String) (st st' : GmState)
    (s : String) (tr : List Event)
    (h : stepMount env cd lbl w t st s = ((st', none), tr)) :
    imgDelta st st' tr ∧ ovlDelta st st' tr ∧ lockDelta st st' tr ∧
    ∃ d dm, st'.finalMounts = (d, dm) :: st.finalMounts ∧
       keyCount st.finalMounts d = 0 ∧
       (∀ d', cnt (.resolvedDest d') tr = if d' = d then 1 else 0) := by
  unfold stepMount at h
  split at h
  · simp at h
  · split at h
    · simp at h
    · split at h
      · -- bind
        split at h
        · simp at h
        · rename_i m image overlayDir tr0 hres
          simp only [Prod.mk.injEq] at h
          obtain ⟨hdup, htr⟩ := h
          obtain ⟨hfmO, hmiO, hlkO, hcntO⟩ :=
            addOverlay_fields (addImage { st with mountType := _ } image) overlayDir
          obtain ⟨hfmI, hodI, hlkI, hcntI⟩ := addImage_fields { st with mountType := _ } image
          obtain ⟨hfm', hkc, hmi', hod', hlk'⟩ := addDup_ok _ _ _ hdup
          rw [hfmO, hfmI] at hfm' hkc
          rw [hmiO] at hmi'
          rw [hodI] at hcntO
          rw [hlkO, hlkI] at hlk'
          rcases bindShape_ok env hw _ _ _ _ _ _ _ _ _ _ hres with
            ⟨hie, hoe, htr0⟩ | ⟨hie, hone, htr0⟩ | ⟨hine, hone, htr0⟩ <;>
            subst htr0 <;> subst htr <;>
            refine ⟨?_, ?_, ?_, m.destination, m, by simpa using hfm', by simpa using hkc, ?_⟩
          · intro i
            rw [hmi', hcntI i]
            simp [cnt, List.count_cons, hie] <;> omega
          · intro o
            rw [hod', hcntO o]
            simp [cnt, List.count_cons, hoe] <;> omega
          · intro p
            rw [hlk']
            simp [cnt, List.count_cons] <;> omega
          · intro d'
            by_cases hd : d' = m.destination
            · subst hd; simp [cnt, List.count_cons, List.count_append]
            · simp [cnt, List.count_cons, List.count_append, hd, Ne.symm hd]
          · intro i
            rw [hmi', hcntI i]
            simp [cnt, List.count_cons, hie] <;> omega
          · intro o
            rw [hod', hcntO o]
            by_cases ho : overlayDir = o
            · subst ho; simp [cnt, List.count_cons, hone] <;> omega
            · simp [cnt, List.count_cons, ho, Ne.symm ho]
          · intro p
            rw [hlk']
            simp [cnt, List.count_cons] <;> omega
          · intro d'
            by_cases hd : d' = m.destination
            · subst hd; simp [cnt, List.count_cons, List.count_append]
            · simp [cnt, List.count_cons, List.count_append, hd, Ne.symm hd]
          · intro i
            rw [hmi', hcntI i]
            by_cases hi : image = i
            · subst hi; simp [cnt, List.count_cons, hine] <;> omega
            · simp [cnt, List.count_cons, hi, Ne.symm hi]
          · intro o
            rw [hod', hcntO o]
            by_cases ho : overlayDir = o
            · subst ho; simp [cnt, List.count_cons, hone] <;> omega
            · simp [cnt, List.count_cons, ho, Ne.symm ho]
          · intro p
            rw [hlk']
            simp [cnt, List.count_cons] <;> omega
          · intro d'
            by_cases hd : d' = m.destination
            · subst hd; simp [cnt, List.count_cons, List.count_append]
            · simp [cnt, List.count_cons, List.count_append, hd, Ne.symm hd]
      · split at h
        · -- cache
          split at h
          · simp at h
          · rename_i m tl tr0 hres
            simp only [Prod.mk.injEq] at h
            obtain ⟨hdup, htr⟩ := h
            obtain ⟨hfmL, hmiL, hodL, hcntL⟩ := addLock_fields { st with mountType := _ } tl
            obtain ⟨hfm', hkc, hmi', hod', hlk'⟩ := addDup_ok _ _ _ hdup
            rw [hfmL] at hfm' hkc
            rw [hmiL] at hmi'
            rw [hodL] at hod'
            rcases cacheShape_ok _ _ _ _ _ _ _ hres with ⟨hle, htr0⟩ | ⟨p, hle, htr0⟩ <;>
              subst htr0 <;> subst htr <;> subst hle <;>
              refine ⟨?_, ?_, ?_, m.destination, m, by simpa using hfm', by simpa using hkc, ?_⟩
            · intro i
              rw [hmi']
              simp [cnt, List.count_cons] <;> omega
            · intro o
              rw [hod']
              simp [cnt, List.count_cons] <;> omega
            · intro q
              rw [hlk', hcntL q]
              simp [cnt, List.count_cons] <;> omega
            · intro d'
              by_cases hd : d' = m.destination
              · subst hd; simp [cnt, List.count_cons, List.count_append]
              · simp [cnt, List.count_cons, List.count_append, hd, Ne.symm hd]
            · intro i
              rw [hmi']
              simp [cnt, List.count_cons] <;> omega
            · intro o
              rw [hod']
              simp [cnt, List.count_cons] <;> omega
            · intro q
              rw [hlk', hcntL q]
              by_cases hq : p = q
              · subst hq; simp [cnt, List.count_cons] <;> omega
              · simp [cnt, List.count_cons, hq, Ne.symm hq]
            · intro d'
              by_cases hd : d' = m.destination
              · subst hd; simp [cnt, List.count_cons, List.count_append]
              · simp [cnt, List.count_cons, List.count_append, hd, Ne.symm hd]
        · split at h
          · -- tmpfs
            split at h
            · simp at h
            · rename_i m hres
              simp only [Prod.mk.injEq] at h
              obtain ⟨hdup, htr⟩ := h
              obtain ⟨hfm', hkc, hmi', hod', hlk'⟩ := addDup_ok _ _ _ hdup
              subst htr
              refine ⟨?_, ?_, ?_, m.destination, m, by simpa using hfm', by simpa using hkc, ?_⟩
              · intro i
                rw [hmi']
                simp [cnt, List.count_cons] <;> omega
              · intro o
                rw [hod']
                simp [cnt, List.count_cons] <;> omega
              · intro q
                rw [hlk']
                simp [cnt, List.count_cons] <;> omega
              · intro d'
                by_cases hd : d' = m.destination
                · subst hd; simp [cnt, List.count_cons]
                · simp [cnt, List.count_cons, hd, Ne.symm hd]
          · simp at h

theorem step_err (env : Env) (hw : EnvWF env) (cd lbl w t : String) (st st' : GmState)
    (s : String) (e : MErr) (tr : List Event)
    (h : stepMount env cd lbl w t st s = ((st', some e), tr)) :
    st'.finalMounts = st.finalMounts ∧ imgDelta st st' tr ∧ lockDelta st st' tr ∧
    ((∃ d0, e = .duplicateDest d0 ∧ ovlDelta st st' tr ∧ 0 < keyCount st.finalMounts d0 ∧
        (∀ d', cnt (.resolvedDest d') tr = if d' = d0 then 1 else 0))
     ∨ (∀ d', cnt (.resolvedDest d') tr = 0)) := by
  unfold stepMount at h
  split at h
  · simp only [Prod.mk.injEq] at h
    obtain ⟨⟨hst, _⟩, htr⟩ := h
    subst hst
    subst htr
    exact ⟨rfl, fun i => by simp [cnt], fun p => by simp [cnt],
      Or.inr (fun d' => by simp [cnt])⟩
  · split at h
    · simp only [Prod.mk.injEq] at h
      obtain ⟨⟨hst, _⟩, htr⟩ := h
      subst hst
      subst htr
      exact ⟨rfl, fun i => by simp [cnt], fun p => by simp [cnt],
        Or.inr (fun d' => by simp [cnt])⟩
    · split at h
      · -- bind
        split at h
        · -- resolver failed
          rename_i m0 img0 od0 e0 tr0 hres
          simp only [Prod.mk.injEq] at h
          obtain ⟨⟨hst, he⟩, htr⟩ := h
          subst htr
          obtain ⟨himg, hod, hshape⟩ := bindShape_err _ _ _ _ _ _ _ _ _ _ _ _ hres
          refine ⟨by rw [← hst], ?_, ?_, Or.inr ?_⟩
          · intro i
            rw [← hst]
            rcases hshape with h0 | ⟨d, h0 | h0⟩ | ⟨i0, h0 | ⟨d, h0 | h0⟩⟩ <;> subst h0 <;>
              (try simp [cnt, List.count_cons] <;> omega) <;>
              (by_cases hi : i0 = i
               · subst hi; simp [cnt, List.count_cons] <;> omega
               · simp [cnt, List.count_cons, hi, Ne.symm hi] <;> omega)
          · intro p
            rw [← hst]
            rcases hshape with h0 | ⟨d, h0 | h0⟩ | ⟨i0, h0 | ⟨d, h0 | h0⟩⟩ <;> subst h0 <;>
              simp [cnt, List.count_cons] <;> omega
          · intro d'
            rcases hshape with h0 | ⟨d, h0 | h0⟩ | ⟨i0, h0 | ⟨d, h0 | h0⟩⟩ <;> subst h0 <;>
              simp [cnt, List.count_cons]
        · -- resolver succeeded, duplicate detected
          rename_i m image overlayDir tr0 hres
          simp only [Prod.mk.injEq] at h
          obtain ⟨hdup, htr⟩ := h
          obtain ⟨hfmO, hmiO, hlkO, hcntO⟩ :=
            addOverlay_fields (addImage { st with mountType := _ } image) overlayDir
          obtain ⟨hfmI, hodI, hlkI, hcntI⟩ := addImage_fields { st with mountType := _ } image
          obtain ⟨hst', he, hkc⟩ := addDup_err _ _ _ _ hdup
          rw [hfmO, hfmI] at hkc
          rw [hodI] at hcntO
          subst hst'
          rcases bindShape_ok env hw _ _ _ _ _ _ _ _ _ _ hres with
            ⟨hie, hoe, htr0⟩ | ⟨hie, hone, htr0⟩ | ⟨hine, hone, htr0⟩ <;>
            subst htr0 <;> subst htr <;>
            refine ⟨by rw [hfmO, hfmI], ?_, ?_,
              Or.inl ⟨m.destination, he, ?_, by simpa using hkc, ?_⟩⟩
          · intro i
            rw [hmiO, hcntI i]
            simp [cnt, List.count_cons, hie] <;> omega
          · intro p
            rw [hlkO, hlkI]
            simp [cnt, List.count_cons] <;> omega
          · intro o
            rw [hcntO o]
            simp [cnt, List.count_cons, hoe] <;> omega
          · intro d'
            by_cases hd : d' = m.destination
            · subst hd; simp [cnt, List.count_cons, List.count_append]
            · simp [cnt, List.count_cons, List.count_append, hd, Ne.symm hd]
          · intro i
            rw [hmiO, hcntI i]
            simp [cnt, List.count_cons, hie] <;> omega
          · intro p
            rw [hlkO, hlkI]
            simp [cnt, List.count_cons] <;> omega
          · intro o
            rw [hcntO o]
            by_cases ho : overlayDir = o
            · subst ho; simp [cnt, List.count_cons, hone] <;> omega
            · simp [cnt, List.count_cons, ho, Ne.symm ho]
          · intro d'
            by_cases hd : d' = m.destination
            · subst hd; simp [cnt, List.count_cons, List.count_append]
            · simp [cnt, List.count_cons, List.count_append, hd, Ne.symm hd]
          · intro i
            rw [hmiO, hcntI i]
            by_cases hi : image = i
            · subst hi; simp [cnt, List.count_cons, hine] <;> omega
            · simp [cnt, List.count_cons, hi, Ne.symm hi]
          · intro p
            rw [hlkO, hlkI]
            simp [cnt, List.count_cons] <;> omega
          · intro o
            rw [hcntO o]
            by_cases ho : overlayDir = o
            · subst ho; simp [cnt, List.count_cons, hone] <;> omega
            · simp [cnt, List.count_cons, ho, Ne.symm ho]
          · intro d'
            by_cases hd : d' = m.destination
            · subst hd; simp [cnt, List.count_cons, List.count_append]
            · simp [cnt, List.count_cons, List.count_append, hd, Ne.symm hd]
      · split at h
        · -- cache
          split at h
          · rename_i m0 l0 e0 tr0 hres
            simp only [Prod.mk.injEq] at h
            obtain ⟨⟨hst, he⟩, htr⟩ := h
            subst htr
            obtain ⟨hl, hshape⟩ := cacheShape_err _ _ _ _ _ _ _ _ hres
            refine ⟨by rw [← hst], ?_, ?_, Or.inr ?_⟩
            · intro i
              rw [← hst]
              rcases hshape with h0 | ⟨p, h0⟩ <;> subst h0 <;>
                simp [cnt, List.count_cons] <;> omega
            · intro p
              rw [← hst]
              rcases hshape with h0 | ⟨q, h0⟩ <;> subst h0
              · simp [cnt, List.count_cons] <;> omega
              · by_cases hq : q = p
                · subst hq; simp [cnt, List.count_cons] <;> omega
                · simp [cnt, List.count_cons, hq, Ne.symm hq] <;> omega
            · intro d'
              rcases hshape with h0 | ⟨p, h0⟩ <;> subst h0 <;>
                simp [cnt, List.count_cons]
          · rename_i m tl tr0 hres
            simp only [Prod.mk.injEq] at h
            obtain ⟨hdup, htr⟩ := h
            obtain ⟨hfmL, hmiL, hodL, hcntL⟩ := addLock_fields { st with mountType := _ } tl
            obtain ⟨hst', he, hkc⟩ := addDup_err _ _ _ _ hdup
            rw [hfmL] at hkc
            subst hst'
            rcases cacheShape_ok _ _ _ _ _ _ _ hres with ⟨hle, htr0⟩ | ⟨p, hle, htr0⟩ <;>
              subst htr0 <;> subst htr <;> subst hle <;>
              refine ⟨by rw [hfmL], ?_, ?_,
                Or.inl ⟨m.destination, he, ?_, by simpa using hkc, ?_⟩⟩
            · intro i
              rw [hmiL]
              simp [cnt, List.count_cons] <;> omega
            · intro q
              rw [hcntL q]
              simp [cnt, List.count_cons] <;> omega
            · intro o
              rw [hodL]
              simp [cnt, List.count_cons] <;> omega
            · intro d'
              by_cases hd : d' = m.destination
              · subst hd; simp [cnt, List.count_cons, List.count_append]
              · simp [cnt, List.count_cons, List.count_append, hd, Ne.symm hd]
            · intro i
              rw [hmiL]
              simp [cnt, List.count_cons] <;> omega
            · intro q
              rw [hcntL q]
              by_cases hq : p = q
              · subst hq; simp [cnt, List.count_cons] <;> omega
              · simp [cnt, List.count_cons, hq, Ne.symm hq]
            · intro o
              rw [hodL]
              simp [cnt, List.count_cons] <;> omega
            · intro d'
              by_cases hd : d' = m.destination
              · subst hd; simp [cnt, List.count_cons, List.count_append]
              · simp [cnt, List.count_cons, List.count_append, hd, Ne.symm hd]
        · split at h
          · -- tmpfs
            split at h
            · simp only [Prod.mk.injEq] at h
              obtain ⟨⟨hst, he⟩, htr⟩ := h
              subst htr
              refine ⟨by rw [← hst], ?_, ?_, Or.inr ?_⟩
              · intro i
                rw [← hst]
                simp [cnt, List.count_cons] <;> omega
              · intro p
                rw [← hst]
                simp [cnt, List.count_cons] <;> omega
              · intro d'
                simp [cnt, List.count_cons]
            · rename_i m hres
              simp only [Prod.mk.injEq] at h
              obtain ⟨hdup, htr⟩ := h
              obtain ⟨hst', he, hkc⟩ := addDup_err _ _ _ _ hdup
              subst hst'
              subst htr
              refine ⟨rfl, ?_, ?_,
                Or.inl ⟨m.destination, he, ?_, by simpa using hkc, ?_⟩⟩
              · intro i
                simp [cnt, List.count_cons] <;> omega
              · intro p
                simp [cnt, List.count_cons] <;> omega
              · intro o
                simp [cnt, List.count_cons] <;> omega
              · intro d'
                by_cases hd : d' = m.destination
                · subst hd; simp [cnt, List.count_cons]
                · simp [cnt, List.count_cons, hd, Ne.symm hd]
          · simp only [Prod.mk.injEq] at h
            obtain ⟨⟨hst, he⟩, htr⟩ := h
            subst htr
            refine ⟨by rw [← hst], ?_, ?_, Or.inr ?_⟩
            · intro i
              rw [← hst]
              simp [cnt]
            · intro p
              rw [← hst]
              simp [cnt]
            · intro d'
              simp [cnt]

theorem keyCount_cons (k : String) (v : Mount) (l : List (String × Mount)) (d : String) :
    keyCount ((k, v) :: l) d = keyCount l d + if k = d then 1 else 0 := by
  simp [keyCount, List.count_cons]

theorem gmLoop_spec (env : Env) (hw : EnvWF env) (cd lbl w t : String) :
    ∀ (ms : List String) (st st' : GmState) (e? : Option MErr) (T : List Event),
    getMountsLoop env cd lbl w t st ms = ((st', e?), T) →
    (∀ d, keyCount st.finalMounts d ≤ 1) →
    imgDelta st st' T ∧ lockDelta st st' T ∧
    (match e? with
     | none => ovlDelta st st' T ∧
         (∀ d, cnt (.resolvedDest d) T + keyCount st.finalMounts d = keyCount st'.finalMounts d) ∧
         (∀ d, keyCount st'.finalMounts d ≤ 1)
     | some e => ((∃ d0, e = .duplicateDest d0 ∧ ovlDelta st st' T)
                  ∨ (∀ d, cnt (.resolvedDest d) T + keyCount st.finalMounts d ≤ 1))) := by
  intro ms
  induction ms with
  | nil =>
    intro st st' e? T h hnk
    unfold getMountsLoop at h
    simp only [Prod.mk.injEq] at h
    obtain ⟨⟨hst, he⟩, htr⟩ := h
    subst hst; subst htr
    rcases he with rfl
    exact ⟨fun i => by simp [cnt], fun p => by simp [cnt],
      fun o => by simp [cnt], fun d => by simp [cnt], hnk⟩
  | cons mnt rest ih =>
    intro st st' e? T h hnk
    unfold getMountsLoop at h
    split at h
    · -- step failed
      rename_i st1 e1 tr1 hstep
      simp only [Prod.mk.injEq] at h
      obtain ⟨⟨hst, he⟩, htr⟩ := h
      subst hst; subst htr
      rcases he with rfl
      obtain ⟨hfm, himg, hlock, hdisj⟩ := step_err env hw cd lbl w t st _ mnt _ _ hstep
      refine ⟨himg, hlock, ?_⟩
      rcases hdisj with ⟨d0, rfl, hovl, hkc, hcnts⟩ | hzero
      · exact Or.inl ⟨d0, rfl, hovl⟩
      · refine Or.inr (fun d => ?_)
        rw [hzero d]
        simpa using hnk d
    · -- step succeeded
      rename_i st1 tr1 hstep
      split at h
      rename_i st2 e2 tr2 hrest
      simp only [Prod.mk.injEq] at h
      obtain ⟨⟨hst, he⟩, htr⟩ := h
      subst hst; subst he; subst htr
      obtain ⟨himg1, hovl1, hlock1, d0, dm0, hins, hkc0, hcnt1⟩ :=
        step_ok env hw cd lbl w t st _ mnt _ hstep
      have hnk1 : ∀ d, keyCount st1.finalMounts d ≤ 1 := by
        intro d
        rw [hins, keyCount_cons]
        by_cases hd : d0 = d
        · subst hd; rw [hkc0]; simp
        · have := hnk d
          simp [hd]
          omega
      obtain ⟨himg2, hlock2, hrest2⟩ := ih st1 st2 e2 tr2 hrest hnk1
      refine ⟨imgDelta_comp _ _ _ _ _ himg1 himg2, lockDelta_comp _ _ _ _ _ hlock1 hlock2, ?_⟩
      cases e2 with
      | none =>
        obtain ⟨hovl2, hcnt2, hnk2⟩ := hrest2
        refine ⟨ovlDelta_comp _ _ _ _ _ hovl1 hovl2, ?_, hnk2⟩
        intro d
        have h1 := hcnt1 d
        have h2 := hcnt2 d
        have h3 : keyCount st1.finalMounts d = keyCount st.finalMounts d + if d0 = d then 1 else 0 := by
          rw [hins, keyCount_cons]
        rw [cnt_append, h1]
        by_cases hd : d = d0
        · subst hd; simp at h3 ⊢; omega
        · have hd2 : ¬ (d0 = d) := Ne.symm hd
          simp [hd, hd2] at h3 ⊢
          omega
      | some e =>
        rcases hrest2 with ⟨d1, rfl, hovl2⟩ | hle
        · exact Or.inl ⟨d1, rfl, ovlDelta_comp _ _ _ _ _ hovl1 hovl2⟩
        · refine Or.inr (fun d => ?_)
          have h1 := hcnt1 d
          have h2 := hle d
          have h3 : keyCount st1.finalMounts d = keyCount st.finalMounts d + if d0 = d then 1 else 0 := by
            rw [hins, keyCount_cons]
          rw [cnt_append, h1]
          by_cases hd : d = d0
          · subst hd; simp at h3 ⊢; omega
          · have hd2 : ¬ (d0 = d) := Ne.symm hd
            simp [hd, hd2] at h3 ⊢
            omega

theorem cnt_map_ne (f : String → Event) (e : Event) (l : List String)
    (h : ∀ x, e ≠ f x) : List.count e (l.map f) = 0 := by
  apply List.count_eq_zero.mpr
  intro hmem
  obtain ⟨x, hx, hfx⟩ := List.mem_map.mp hmem
  exact absurd hfx.symm (h x)

theorem cleanup_cnt (st : GmState) :
    (∀ i, cnt (.unmountImage i) (cleanupEvents st) = st.mountedImages.count i) ∧
    (∀ o, cnt (.removeOverlay o) (cleanupEvents st) = st.overlayDirs.count o) ∧
    (∀ p, cnt (.lockRelease p) (cleanupEvents st) = st.targetLocks.count p) ∧
    (∀ i, cnt (.mountImage i) (cleanupEvents st) = 0) ∧
    (∀ o, cnt (.createOverlay o) (cleanupEvents st) = 0) ∧
    (∀ p, cnt (.lockAcquire p) (cleanupEvents st) = 0) ∧
    (∀ d, cnt (.resolvedDest d) (cleanupEvents st) = 0) := by
  have hinjU : Function.Injective Event.unmountImage := fun a b h => by injection h
  have hinjR : Function.Injective Event.removeOverlay := fun a b h => by injection h
  have hinjL : Function.Injective Event.lockRelease := fun a b h => by injection h
  unfold cleanupEvents
  refine ⟨fun i => ?_, fun o => ?_, fun p => ?_, fun i => ?_, fun o => ?_, fun p => ?_, fun d => ?_⟩ <;>
    simp only [cnt, List.count_append]
  · rw [List.count_map_of_injective _ _ hinjU,
      cnt_map_ne Event.removeOverlay _ _ (fun x hx => Event.noConfusion hx),
      cnt_map_ne Event.lockRelease _ _ (fun x hx => Event.noConfusion hx)]
    omega
  · rw [List.count_map_of_injective _ _ hinjR,
      cnt_map_ne Event.unmountImage _ _ (fun x hx => Event.noConfusion hx),
      cnt_map_ne Event.lockRelease _ _ (fun x hx => Event.noConfusion hx)]
    omega
  · rw [List.count_map_of_injective _ _ hinjL,
      cnt_map_ne Event.removeOverlay _ _ (fun x hx => Event.noConfusion hx),
      cnt_map_ne Event.unmountImage _ _ (fun x hx => Event.noConfusion hx)]
    omega
  all_goals
    rw [cnt_map_ne Event.removeOverlay _ _ (fun x hx => Event.noConfusion hx),
      cnt_map_ne Event.unmountImage _ _ (fun x hx => Event.noConfusion hx),
      cnt_map_ne Event.lockRelease _ _ (fun x hx => Event.noConfusion hx)]

theorem gm_spec_ok (env : Env) (hw : EnvWF env) (cd lbl w t : String)
    (ms : List String) (st : GmState) (T : List Event)
    (h : getMounts env cd lbl w t ms = (.ok st, T)) :
    (∀ d, cnt (.resolvedDest d) T = keyCount st.finalMounts d) ∧
    (∀ d, keyCount st.finalMounts d ≤ 1) ∧
    imgDelta gmInit st T ∧ ovlDelta gmInit st T ∧ lockDelta gmInit st T := by
  unfold getMounts at h
  split at h
  · rename_i st0 T0 hloop
    simp only [Prod.mk.injEq] at h
    obtain ⟨hst, hT⟩ := h
    injection hst with hst
    subst hst; subst hT
    obtain ⟨himg, hlock, hrest⟩ := gmLoop_spec env hw cd lbl w t ms gmInit st0 none T0 hloop
      (fun d => by simp [gmInit, keyCount])
    obtain ⟨hovl, hcnt, hnk⟩ := hrest
    exact ⟨fun d => by have := hcnt d; simpa [gmInit, keyCount] using this,
      hnk, himg, hovl, hlock⟩
  · simp at h

theorem gm_spec_err (env : Env) (hw : EnvWF env) (cd lbl w t : String)
    (ms : List String) (e : MErr) (T : List Event)
    (h : getMounts env cd lbl w t ms = (.error e, T)) :
    (∀ i, cnt (.mountImage i) T = cnt (.unmountImage i) T) ∧
    (∀ p, cnt (.lockAcquire p) T = cnt (.lockRelease p) T) ∧
    ((∃ d0, e = .duplicateDest d0 ∧ (∀ o, cnt (.createOverlay o) T = cnt (.removeOverlay o) T))
     ∨ (∀ d, cnt (.resolvedDest d) T ≤ 1)) := by
  unfold getMounts at h
  split at h
  · simp at h
  · rename_i st0 e0 T0 hloop
    simp only [Prod.mk.injEq] at h
    obtain ⟨hst, hT⟩ := h
    injection hst with hst
    subst hst; subst hT
    obtain ⟨himg, hlock, hrest⟩ := gmLoop_spec env hw cd lbl w t ms gmInit st0 _ T0 hloop
      (fun d => by simp [gmInit, keyCount])
    obtain ⟨hcleanU, hcleanR, hcleanL, hclean0M, hclean0C, hclean0A, hclean0D⟩ := cleanup_cnt st0
    refine ⟨fun i => ?_, fun p => ?_, ?_⟩
    · have h1 := himg i
      simp [gmInit] at h1
      rw [cnt_append, cnt_append, hclean0M i, hcleanU i]
      omega
    · have h1 := hlock p
      simp [gmInit] at h1
      rw [cnt_append, cnt_append, hclean0A p, hcleanL p]
      omega
    · rcases hrest with ⟨d0, rfl, hovl⟩ | hle
      · refine Or.inl ⟨d0, rfl, fun o => ?_⟩
        have h1 := hovl o
        simp [gmInit] at h1
        rw [cnt_append, cnt_append, hclean0C o, hcleanR o]
        omega
      · refine Or.inr (fun d => ?_)
        have h1 := hle d
        simp [gmInit, keyCount] at h1
        rw [cnt_append, hclean0D d]
        omega

theorem gv_spec (env : Env) :
    ∀ (vols : List String) (fm fm' : List (String × Mount)) (e? : Option MErr) (Tv : List Event),
    getVolumeMountsLoop env fm vols = ((fm', e?), Tv) →
    (∀ d, keyCount fm d ≤ 1) →
    resourceFree Tv ∧
    (match e? with
     | none => (∀ d, cnt (.resolvedDest d) Tv + keyCount fm d = keyCount fm' d) ∧
               (∀ d, keyCount fm' d ≤ 1)
     | some e => ((∃ d0, e = .duplicateDest d0) ∨
                  (∃ v ∈ vols, ∃ msg, env.parseVolume v = .error msg ∧ e = .external msg))) := by
  intro vols
  induction vols with
  | nil =>
    intro fm fm' e? Tv h hnk
    unfold getVolumeMountsLoop at h
    simp only [Prod.mk.injEq] at h
    obtain ⟨⟨hfm, he⟩, htr⟩ := h
    subst hfm; subst htr
    rcases he with rfl
    exact ⟨⟨fun i => rfl, fun i => rfl, fun o => rfl, fun o => rfl, fun p => rfl, fun p => rfl⟩,
      fun d => by simp [cnt], hnk⟩
  | cons v rest ih =>
    intro fm fm' e? Tv h hnk
    unfold getVolumeMountsLoop at h
    split at h
    · -- parse failure
      rename_i msg hpv
      simp only [Prod.mk.injEq] at h
      obtain ⟨⟨hfm, he⟩, htr⟩ := h
      subst hfm; subst htr
      rcases he with rfl
      exact ⟨⟨fun i => rfl, fun i => rfl, fun o => rfl, fun o => rfl, fun p => rfl, fun p => rfl⟩,
        Or.inr ⟨v, List.mem_cons_self v rest, msg, hpv, rfl⟩⟩
    · rename_i vm hpv
      split at h
      · -- duplicate among the volumes
        rename_i hdup
        simp only [Prod.mk.injEq] at h
        obtain ⟨⟨hfm, he⟩, htr⟩ := h
        subst hfm; subst htr
        rcases he with rfl
        refine ⟨⟨fun i => by simp [cnt, List.count_cons], fun i => by simp [cnt, List.count_cons],
          fun o => by simp [cnt, List.count_cons], fun o => by simp [cnt, List.count_cons],
          fun p => by simp [cnt, List.count_cons], fun p => by simp [cnt, List.count_cons]⟩,
          Or.inl ⟨vm.destination, rfl⟩⟩
      · -- inserted, recurse
        rename_i hdup
        split at h
        rename_i fm2 e2 tr2 hrest
        simp only [Prod.mk.injEq] at h
        obtain ⟨⟨hfm, he⟩, htr⟩ := h
        subst hfm; subst he; subst htr
        have hkey0 : keyCount fm vm.destination = 0 := by
          have hk := lookup_keyCount fm vm.destination
          simp at hdup
          simp [hdup] at hk
          omega
        have hnk2 : ∀ d, keyCount ((vm.destination, vm) :: fm) d ≤ 1 := by
          intro d
          rw [keyCount_cons]
          by_cases hd : vm.destination = d
          · subst hd; rw [hkey0]; simp
          · have := hnk d
            simp [hd]
            omega
        obtain ⟨hrf, hrest2⟩ := ih _ fm2 e2 tr2 hrest hnk2
        obtain ⟨hz1, hz2, hz3, hz4, hz5, hz6⟩ := hrf
        refine ⟨⟨fun i => by simp [cnt_cons, hz1 i], fun i => by simp [cnt_cons, hz2 i],
          fun o => by simp [cnt_cons, hz3 o], fun o => by simp [cnt_cons, hz4 o],
          fun p => by simp [cnt_cons, hz5 p], fun p => by simp [cnt_cons, hz6 p]⟩, ?_⟩
        cases e2 with
        | none =>
          obtain ⟨hcnt2, hnk3⟩ := hrest2
          refine ⟨fun d => ?_, hnk3⟩
          have h2 := hcnt2 d
          have h3 : keyCount ((vm.destination, vm) :: fm) d =
              keyCount fm d + if vm.destination = d then 1 else 0 := keyCount_cons _ _ _ _
          rw [cnt_cons]
          by_cases hd : d = vm.destination
          · subst hd; simp at h3 ⊢; omega
          · have hd2 : ¬ (vm.destination = d) := Ne.symm hd
            simp [hd, hd2] at h3 ⊢
            omega
        | some e =>
          rcases hrest2 with ⟨d0, rfl⟩ | ⟨v2, hv2, msg, hpv2, rfl⟩
          · exact Or.inl ⟨d0, rfl⟩
          · exact Or.inr ⟨v2, List.mem_cons_of_mem v hv2, msg, hpv2, rfl⟩

theorem mv_ok : ∀ (l uni u : List (String × Mount)), mergeVolumes uni l = .ok u →
    ∀ d, 0 < keyCount l d → keyCount uni d = 0 := by
  intro l
  induction l with
  | nil =>
    intro uni u h d hd
    simp [keyCount] at hd
  | cons hd tl ih =>
    intro uni u h d hcnt
    obtain ⟨d1, m1⟩ := hd
    unfold mergeVolumes at h
    split at h
    · simp at h
    · rename_i hdup
      rw [keyCount_cons] at hcnt
      by_cases hdd : d1 = d
      · subst hdd
        have hk := lookup_keyCount uni d1
        simp at hdup
        simp [hdup] at hk
        omega
      · have h2 : 0 < keyCount tl d := by simp [hdd] at hcnt; omega
        have h3 := ih _ _ h d h2
        rw [keyCount_cons] at h3
        simp [hdd] at h3
        omega

theorem mv_err : ∀ (uni l : List (String × Mount)) (e : MErr),
    mergeVolumes uni l = .error e → ∃ d0, e = .duplicateDest d0 := by
  intro uni l
  induction l generalizing uni with
  | nil => intro e h; unfold mergeVolumes at h; cases h
  | cons hd tl ih =>
    intro e h
    obtain ⟨d1, m1⟩ := hd
    unfold mergeVolumes at h
    split at h
    · injection h with h1
      exact ⟨d1, h1.symm⟩
    · exact ih _ _ h

theorem gvDupSpec (env : Env) (hw : EnvWF env) (cd lbl w t : String)
    (vols mounts : List String)
    (r : Except MErr (List Mount × List String × List String × List String))
    (T : List Event) (d : String)
    (h : GetVolumes env cd lbl w t vols mounts = (r, T))
    (hcnt : 2 ≤ cnt (.resolvedDest d) T) :
    (∃ e, r = .error e) ∧ balancedTrace T ∧
    ((∀ v ∈ vols, ∃ mv, env.parseVolume v = .ok mv) →
      ∃ d', r = .error (.duplicateDest d')) := by
  unfold GetVolumes at h
  split at h
  · -- getMounts failed
    rename_i e0 Tm hgm
    simp only [Prod.mk.injEq] at h
    obtain ⟨hr, hT⟩ := h
    subst hr; subst hT
    obtain ⟨hib, hlb, hdisj⟩ := gm_spec_err env hw cd lbl w t mounts e0 Tm hgm
    rcases hdisj with ⟨d0, rfl, hob⟩ | hle
    · exact ⟨⟨_, rfl⟩, ⟨hib, hob, hlb⟩, fun _ => ⟨d0, rfl⟩⟩
    · exact absurd hcnt (by have := hle d; omega)
  · rename_i st Tm hgm
    obtain ⟨hcm, hnkm, himgD, hovlD, hlockD⟩ := gm_spec_ok env hw cd lbl w t mounts st Tm hgm
    obtain ⟨hcu, hcr, hcl, hc0m, hc0c, hc0a, hc0d⟩ := cleanup_cnt st
    have hnk0 : ∀ d', keyCount ([] : List (String × Mount)) d' ≤ 1 := by
      intro d'; simp [keyCount]
    split at h
    · -- volume parsing failed
      rename_i fmv e0 Tv hgv
      simp only [Prod.mk.injEq] at h
      obtain ⟨hr, hT⟩ := h
      subst hr; subst hT
      obtain ⟨⟨hv1, hv2, hv3, hv4, hv5, hv6⟩, hdisj⟩ := gv_spec env vols [] fmv _ Tv hgv hnk0
      have hbal : balancedTrace (Tm ++ Tv ++ cleanupEvents st) := by
        refine ⟨fun i => ?_, fun o => ?_, fun p => ?_⟩ <;>
          simp only [cnt_append]
        · have h1 := himgD i
          simp [gmInit] at h1
          rw [hv1 i, hv2 i, hc0m i, hcu i]
          omega
        · have h1 := hovlD o
          simp [gmInit] at h1
          rw [hv3 o, hv4 o, hc0c o, hcr o]
          omega
        · have h1 := hlockD p
          simp [gmInit] at h1
          rw [hv5 p, hv6 p, hc0a p, hcl p]
          omega
      refine ⟨⟨_, rfl⟩, hbal, fun hall => ?_⟩
      rcases hdisj with ⟨d0, rfl⟩ | ⟨v, hv, msg, hpv, rfl⟩
      · exact ⟨d0, rfl⟩
      · obtain ⟨mv, hmv⟩ := hall v hv
        rw [hmv] at hpv
        cases hpv
    · rename_i fmv Tv hgv
      obtain ⟨⟨hv1, hv2, hv3, hv4, hv5, hv6⟩, hvrest⟩ := gv_spec env vols [] fmv _ Tv hgv hnk0
      obtain ⟨hcv, hnkv⟩ := hvrest
      split at h
      · -- merge failed
        rename_i e0 hmerge
        simp only [Prod.mk.injEq] at h
        obtain ⟨hr, hT⟩ := h
        subst hr; subst hT
        obtain ⟨d0, rfl⟩ := mv_err _ _ _ hmerge
        have hbal : balancedTrace (Tm ++ Tv ++ cleanupEvents st) := by
          refine ⟨fun i => ?_, fun o => ?_, fun p => ?_⟩ <;>
            simp only [cnt_append]
          · have h1 := himgD i
            simp [gmInit] at h1
            rw [hv1 i, hv2 i, hc0m i, hcu i]
            omega
          · have h1 := hovlD o
            simp [gmInit] at h1
            rw [hv3 o, hv4 o, hc0c o, hcr o]
            omega
          · have h1 := hlockD p
            simp [gmInit] at h1
            rw [hv5 p, hv6 p, hc0a p, hcl p]
            omega
        exact ⟨⟨_, rfl⟩, hbal, fun _ => ⟨d0, rfl⟩⟩
      · -- success: at most one resolution per destination, contradiction
        rename_i uni hmerge
        simp only [Prod.mk.injEq] at h
        obtain ⟨hr, hT⟩ := h
        subst hr; subst hT
        exfalso
        have h1 : cnt (.resolvedDest d) Tm = keyCount st.finalMounts d := hcm d
        have h2 : cnt (.resolvedDest d) Tv = keyCount fmv d := by
          have h0 := hcv d
          have hz0 : keyCount ([] : List (String × Mount)) d = 0 := by simp [keyCount]
          rw [hz0] at h0
          omega
        rw [cnt_append, h1, h2] at hcnt
        by_cases hz : 0 < keyCount fmv d
        · have h3 := mv_ok fmv st.finalMounts uni hmerge d hz
          have h4 := hnkv d
          omega
        · have h4 := hnkm d
          omega

theorem cacheSELinux_fields (env : Env) (st : CacheScan) :
    (cacheSELinux env st).destination = st.m.destination ∧
    (cacheSELinux env st).source = st.m.source := by
  unfold cacheSELinux
  split <;> exact ⟨rfl, rfl⟩

theorem cacheSource_host (env : Env) (st : CacheScan) (m : Mount)
    (addl : Option (List (String × StageMountDetails))) (m1 : Mount) (lockDir : String)
    (hstage : st.fromStage = "")
    (h : cacheSource env st m addl = .ok (m1, lockDir)) :
    m1.source = joinPath (CacheParent env) (cacheDirID env st m.destination) ∧
    m1.destination = m.destination ∧ m1.options = m.options := by
  unfold cacheSource at h
  rw [if_neg (by simp [hstage])] at h
  split at h
  · cases h
  · split at h
    · cases h
    · split at h
      · cases h
      · injection h with h1
        injection h1 with h2 h3
        subst h2
        exact ⟨rfl, rfl, rfl⟩

theorem cacheSource_stage (env : Env) (st : CacheScan) (m : Mount)
    (addl : Option (List (String × StageMountDetails))) (m1 : Mount) (lockDir : String)
    (hstage : st.fromStage ≠ "")
    (h : cacheSource env st m addl = .ok (m1, lockDir)) :
    lockDir = "" := by
  unfold cacheSource at h
  rw [if_pos hstage] at h
  split at h
  · cases h
  · split at h
    · cases h
    · injection h with h1
      injection h1 with h2 h3
      exact h3.symm

theorem cacheFinalize_ok (st : CacheScan) (m m' : Mount)
    (h : cacheFinalize st m = .ok m') :
    m'.source = m.source ∧ m'.destination = m.destination := by
  unfold cacheFinalize at h
  dsimp only at h
  split at h
  · cases h
  · injection h with h1
    subst h1
    constructor <;> (dsimp only; split <;> split <;> rfl)

theorem cacheSharing_ok_fields (env : Env) (st : CacheScan) (m : Mount) (lockDir : String)
    (m' : Mount) (l : Option String) (tr : List Event)
    (h : cacheSharing env st m lockDir = ((m', l, none), tr)) :
    m'.source = m.source ∧ m'.destination = m.destination := by
  unfold cacheSharing at h
  split at h
  · dsimp only at h
    split at h
    · simp at h
    · split at h
      · simp at h
      · rename_i m2 hfin
        simp only [Prod.mk.injEq] at h
        obtain ⟨⟨hm, _⟩, _⟩ := h
        subst hm
        exact cacheFinalize_ok _ _ _ hfin
  · split at h
    · split at h
      · simp at h
      · rename_i m2 hfin
        simp only [Prod.mk.injEq] at h
        obtain ⟨⟨hm, _⟩, _⟩ := h
        subst hm
        exact cacheFinalize_ok _ _ _ hfin
    · simp at h

theorem cacheSharing_lock_path (env : Env) (st : CacheScan) (m : Mount) (lockDir : String)
    (m' : Mount) (p : String) (tr : List Event)
    (h : cacheSharing env st m lockDir = ((m', some p, none), tr)) :
    p = joinPath lockDir BuildahCacheLockfile := by
  unfold cacheSharing at h
  split at h
  · dsimp only at h
    split at h
    · simp at h
    · split at h
      · simp at h
      · simp only [Prod.mk.injEq, Option.some.injEq] at h
        obtain ⟨⟨_, hl, _⟩, _⟩ := h
        exact hl.symm
  · split at h
    · split at h
      · simp at h
      · simp only [Prod.mk.injEq] at h
        obtain ⟨⟨_, hl, _⟩, _⟩ := h
        cases hl
    · simp at h

theorem cache_success_fields (env : Env) (args : List String)
    (addl : Option (List (String × StageMountDetails))) (w : String)
    (st : CacheScan) (m : Mount) (l : Option String) (tr : List Event)
    (hscan : cacheScanList env w cacheInitScan args = (st, none))
    (h : GetCacheMount env args addl w = ((m, l, none), tr)) :
    (st.fromStage = "" →
      m.source = joinPath (CacheParent env) (cacheDirID env st st.m.destination) ∧
      m.destination = st.m.destination) ∧
    (st.fromStage ≠ "" → ∀ p, l = some p → p = BuildahCacheLockfile) := by
  unfold GetCacheMount at h
  rw [hscan] at h
  dsimp only at h
  split at h
  · simp at h
  · split at h
    · simp at h
    · rename_i m1 lockDir hsrc
      obtain ⟨hseld, hsels⟩ := cacheSELinux_fields env st
      constructor
      · intro hstage
        obtain ⟨hsrc1, hdest1, _⟩ := cacheSource_host env st _ addl m1 lockDir hstage hsrc
        obtain ⟨hms, hmd⟩ := cacheSharing_ok_fields env st m1 lockDir m l tr h
        refine ⟨?_, ?_⟩
        · rw [hms, hsrc1, hseld]
        · rw [hmd, hdest1, hseld]
      · intro hstage p hl
        subst hl
        have hld := cacheSource_stage env st _ addl m1 lockDir hstage hsrc
        have hp := cacheSharing_lock_path env st m1 lockDir m p tr h
        rw [hld, joinPath_empty_left] at hp
        exact hp

theorem bindScanStep_no_rw (env : Env) (w : String) (st : BindScan) (val : String) (st' : BindScan)
    (h : bindScanStep env w st val = .ok st')
    (hv : (cutEq val).1 ∉ readabilityKeys) :
    st'.mountReadability = st.mountReadability ∧
    ("rw" ∈ st'.m.options ↔ "rw" ∈ st.m.options) := by
  unfold bindScanStep at h
  split at h
  rename_i argName argValue hasArgValue hcut
  rw [hcut] at hv
  simp only [readabilityKeys, List.mem_cons, List.mem_singleton] at hv
  push_neg at hv
  obtain ⟨hv1, hv2, hv3, hv4⟩ := hv
  repeat' split at h
  all_goals try (injection h; done)
  all_goals try (injection h with h1; subst h1; try subst_vars; exact ⟨rfl, by simp⟩)
  all_goals try simp_all
  all_goals split at h
  all_goals first
    | (injection h; done)
    | (injection h with h1; subst h1; exact ⟨rfl, by simp⟩)

theorem bindScanList_no_rw (env : Env) (w : String) :
    ∀ (args : List String) (st st' : BindScan),
    bindScanList env w st args = (st', none) →
    (∀ v ∈ args, (cutEq v).1 ∉ readabilityKeys) →
    st'.mountReadability = st.mountReadability ∧
    ("rw" ∈ st'.m.options ↔ "rw" ∈ st.m.options) := by
  intro args
  induction args with
  | nil =>
    intro st st' h hv
    unfold bindScanList at h
    simp only [Prod.mk.injEq] at h
    obtain ⟨h1, _⟩ := h
    subst h1
    exact ⟨rfl, Iff.rfl⟩
  | cons v rest ih =>
    intro st st' h hv
    unfold bindScanList at h
    split at h
    · simp at h
    · rename_i st1 hstep
      obtain ⟨h1, h2⟩ := bindScanStep_no_rw env w st v st1 hstep (hv v (List.mem_cons_self v rest))
      obtain ⟨h3, h4⟩ := ih st1 st' h (fun x hx => hv x (List.mem_cons_of_mem v hx))
      exact ⟨h3.trans h1, h4.trans h2⟩

theorem bindScanStep_label (env : Env) (w : String) (st : BindScan) (val : String) (st' : BindScan)
    (h : bindScanStep env w st val = .ok st') :
    st.m.options.countP (fun o => isLabelChangeOpt o) +
      (if (cutEq val).1 ∈ labelTokKeys then 1 else 0) ≤
    st'.m.options.countP (fun o => isLabelChangeOpt o) := by
  unfold bindScanStep at h
  split at h
  rename_i argName argValue hasArgValue hcut
  rw [hcut]
  repeat' split at h
  all_goals try (injection h; done)
  all_goals try (injection h with h1; subst h1; try subst_vars; simp [labelTokKeys, List.countP_append, List.countP_cons, isLabelChangeOpt]; try omega)
  all_goals dsimp only at h
  all_goals split at h
  all_goals try (injection h; done)
  all_goals injection h with h1
  all_goals subst h1
  all_goals simp [labelTokKeys, List.countP_append, List.countP_cons, isLabelChangeOpt]
  all_goals try omega

theorem bindScanList_label (env : Env) (w : String) :
    ∀ (args : List String) (st st' : BindScan),
    bindScanList env w st args = (st', none) →
    st.m.options.countP (fun o => isLabelChangeOpt o) +
      args.countP (fun v => decide ((cutEq v).1 ∈ labelTokKeys)) ≤
    st'.m.options.countP (fun o => isLabelChangeOpt o) := by
  intro args
  induction args with
  | nil =>
    intro st st' h
    unfold bindScanList at h
    simp only [Prod.mk.injEq] at h
    obtain ⟨h1, _⟩ := h
    subst h1
    simp
  | cons v rest ih =>
    intro st st' h
    unfold bindScanList at h
    split at h
    · simp at h
    · rename_i st1 hstep
      have h1 := bindScanStep_label env w st v st1 hstep
      have h2 := ih st1 st' h
      rw [List.countP_cons]
      by_cases hm : (cutEq v).1 ∈ labelTokKeys
      · rw [if_pos hm] at h1
        rw [if_pos (by simpa using hm)]
        omega
      · rw [if_neg hm] at h1
        rw [if_neg (by simpa using hm)]
        omega

theorem bindScanStep_relabel_ok (env : Env) (w : String) (st : BindScan) (val : String)
    (st' : BindScan) (h : bindScanStep env w st val = .ok st')
    (hr : (cutEq val).1 = "relabel") : st.setRelabel = "" := by
  unfold bindScanStep at h
  split at h
  rename_i argName argValue hasArgValue hcut
  rw [hcut] at hr
  repeat' split at h
  all_goals try (injection h; done)
  all_goals try (simp at hr; done)
  all_goals simp_all
theorem bindScanStep_relabel_map (env : Env) (w : String) (st : BindScan)
    (hst : st.setRelabel = "") :
    bindScanStep env w st "relabel=private" =
      .ok { st with setRelabel := "private",
                    m := { st.m with options := st.m.options ++ ["Z"] } } ∧
    bindScanStep env w st "relabel=shared" =
      .ok { st with setRelabel := "shared",
                    m := { st.m with options := st.m.options ++ ["z"] } } := by
  constructor <;>
    (unfold bindScanStep
     rw [show st.setRelabel = "" from hst]
     rfl)

theorem cacheScanStep_badarg (env : Env) (w : String) (st : CacheScan) (val : String)
    (k : String) (h : cacheScanStep env w st val = .error (.badOptionArg k)) :
    k ≠ "sharing" := by
  unfold cacheScanStep at h
  split at h
  rename_i argName argValue hasArgValue hcut
  repeat' split at h
  all_goals try (dsimp only at h)
  all_goals try (split at h)
  all_goals try (injection h; done)
  all_goals try (injection h with h1; injection h1; done)
  all_goals injection h with h1
  all_goals injection h1 with h2
  all_goals subst h2
  all_goals decide

theorem cacheScanList_badarg (env : Env) (w : String) :
    ∀ (args : List String) (st st' : CacheScan) (k : String),
    cacheScanList env w st args = (st', some (.badOptionArg k)) →
    k ≠ "sharing" := by
  intro args
  induction args with
  | nil =>
    intro st st' k h
    unfold cacheScanList at h
    simp at h
  | cons v rest ih =>
    intro st st' k h
    unfold cacheScanList at h
    split at h
    · rename_i e hstep
      simp only [Prod.mk.injEq] at h
      obtain ⟨_, he⟩ := h
      injection he with he
      subst he
      exact cacheScanStep_badarg env w st v k hstep
    · rename_i st1 hstep
      exact ih st1 st' k h

theorem validate_err_kind (l : List String) (e : MErr)
    (h : validateVolumeOpts l = .error e) : ∃ msg, e = .external msg := by
  unfold validateVolumeOpts at h
  split at h
  · split at h
    · cases h
    · injection h with h1
      exact ⟨_, h1.symm⟩
  · injection h with h1
    exact ⟨_, h1.symm⟩

theorem cacheFinalize_err_kind (st : CacheScan) (m : Mount) (e : MErr)
    (h : cacheFinalize st m = .error e) : ∃ msg, e = .external msg := by
  unfold cacheFinalize at h
  dsimp only at h
  split at h
  · rename_i e2 hv
    injection h with h1
    subst h1
    exact validate_err_kind _ _ hv
  · cases h

theorem cacheSharing_err_kind (env : Env) (st : CacheScan) (m : Mount) (lockDir : String)
    (m' : Mount) (l : Option String) (e : MErr) (tr : List Event)
    (h : cacheSharing env st m lockDir = ((m', l, some e), tr)) :
    (∃ msg, e = .external msg) ∨ (∃ v, e = .unrecognizedSharing v) := by
  unfold cacheSharing at h
  split at h
  · dsimp only at h
    split at h
    · simp only [Prod.mk.injEq] at h
      obtain ⟨⟨_, _, he⟩, _⟩ := h
      injection he with he
      exact Or.inl ⟨_, he.symm⟩
    · split at h
      · rename_i e2 hfin
        simp only [Prod.mk.injEq] at h
        obtain ⟨⟨_, _, he⟩, _⟩ := h
        injection he with he
        subst he
        exact Or.inl (cacheFinalize_err_kind _ _ _ hfin)
      · simp at h
  · split at h
    · split at h
      · rename_i e2 hfin
        simp only [Prod.mk.injEq] at h
        obtain ⟨⟨_, _, he⟩, _⟩ := h
        injection he with he
        subst he
        exact Or.inl (cacheFinalize_err_kind _ _ _ hfin)
      · simp at h
    · simp only [Prod.mk.injEq] at h
      obtain ⟨⟨_, _, he⟩, _⟩ := h
      injection he with he
      exact Or.inr ⟨_, he.symm⟩

theorem cacheSource_err_kind (env : Env) (st : CacheScan) (m : Mount)
    (addl : Option (List (String × StageMountDetails))) (e : MErr)
    (h : cacheSource env st m addl = .error e) :
    (∃ msg, e = .external msg) ∨ (∃ n, e = .noStage n) := by
  unfold cacheSource at h
  split at h
  · split at h
    · injection h with h1
      exact Or.inr ⟨_, h1.symm⟩
    · split at h
      · injection h with h1
        exact Or.inl ⟨_, h1.symm⟩
      · cases h
  · repeat' split at h
    all_goals try (injection h with h1; exact Or.inl ⟨_, h1.symm⟩)
    all_goals cases h

theorem GetCacheMount_badarg (env : Env) (args : List String)
    (addl : Option (List (String × StageMountDetails))) (w : String)
    (m : Mount) (l : Option String) (k : String) (tr : List Event)
    (h : GetCacheMount env args addl w = ((m, l, some (.badOptionArg k)), tr)) :
    k ≠ "sharing" := by
  unfold GetCacheMount at h
  split at h
  · rename_i st e hscan
    simp only [Prod.mk.injEq] at h
    obtain ⟨⟨_, _, he⟩, _⟩ := h
    injection he with he
    subst he
    exact cacheScanList_badarg env w args _ st k hscan
  · rename_i st hscan
    split at h
    · simp only [Prod.mk.injEq] at h
      obtain ⟨⟨_, _, he⟩, _⟩ := h
      cases he
    · split at h
      · rename_i e2 hsrc
        simp only [Prod.mk.injEq] at h
        obtain ⟨⟨_, _, he⟩, _⟩ := h
        injection he with he
        subst he
        rcases cacheSource_err_kind env st _ addl _ hsrc with ⟨msg, hm⟩ | ⟨n, hm⟩ <;> simp at hm
      · rename_i m1 lockDir hsrc
        rcases cacheSharing_err_kind env st m1 lockDir m l _ tr h with ⟨msg, hm⟩ | ⟨v, hm⟩ <;>
          simp at hm

theorem rwFoldFalse : ∀ (l : List String), "rw" ∉ l →
    l.foldl (fun rw option => if option = "rw" then true else if option = "ro" then false else rw)
      false = false := by
  intro l
  induction l with
  | nil => intro _; rfl
  | cons o rest ih =>
    intro h
    simp only [List.mem_cons] at h
    push_neg at h
    obtain ⟨h1, h2⟩ := h
    simp only [List.foldl_cons]
    rw [if_neg (fun hc => h1 hc.symm)]
    split <;> exact ih h2

theorem mIRW_ro (t s d : String) (l1 l2 : List String) (h2 : "rw" ∉ l2) :
    mountIsReadWrite ⟨t, s, d, l1 ++ "ro" :: l2⟩ = false := by
  unfold mountIsReadWrite
  rw [List.foldl_append]
  simp only [List.foldl_cons]
  rw [if_neg (by decide)]
  rw [if_pos (by trivial)]
  exact rwFoldFalse l2 h2

theorem countP_prefix_le (p : String → Bool) (l l' : List String) :
    l.countP p ≤ (l ++ l').countP p := by
  simp [List.countP_append]

theorem bind_success_inv (env : Env) (args : List String) (ctx lbl : String)
    (addl : Option (List (String × StageMountDetails))) (w t : String)
    (m : Mount) (img od : String) (tr : List Event)
    (h : GetBindMount env args ctx lbl addl w t = ((m, img, od, none), tr)) :
    ∃ st, bindScanList env w bindInitScan args = (st, none) ∧
      st.m.options.countP (fun o => isLabelChangeOpt o) ≤ 1 := by
  unfold GetBindMount at h
  split at h
  · simp at h
  · rename_i st hscan
    refine ⟨st, hscan, ?_⟩
    have key : ∀ (cd img2 : String) (m' : Mount) (od2 : String) (tr2 : List Event),
        bindFinish env st
          (if st.mountReadability = "" then
            { st.m with options := st.m.options ++ ["ro"] } else st.m)
          cd lbl t img2 = ((m', od2, none), tr2) →
        st.m.options.countP (fun o => isLabelChangeOpt o) ≤ 1 := by
      intro cd img2 m' od2 tr2 hbf
      obtain ⟨hval, _⟩ := bf_ok _ _ _ _ _ _ _ _ _ _ hbf
      obtain ⟨_, hcount⟩ := validate_ok _ _ hval
      refine le_trans ?_ hcount
      unfold bindAssembled
      split
      · refine le_trans ?_ (countP_prefix_le _ _ _)
        split
        · exact countP_prefix_le _ _ _
        · exact le_refl _
      · split
        · exact countP_prefix_le _ _ _
        · exact le_refl _
    dsimp only at h
    split at h
    · split at h
      · split at h
        · simp at h
        · split at h
          · simp at h
          · split at h
            · simp at h
            · rename_i m2 od2 tr2 hbf
              simp only [Prod.mk.injEq] at h
              exact key _ _ _ _ _ hbf
      · split at h
        · simp at h
        · rename_i m2 od2 tr2 hbf
          exact key _ _ _ _ _ hbf
    · split at h
      · simp at h
      · rename_i m2 od2 tr2 hbf
        exact key _ _ _ _ _ hbf

theorem strPreNe (p n : String) (hp : p ≠ "") : p ++ n ≠ "" := by
  intro h
  have hd := congrArg String.data h
  rw [show ("" : String).data = [] from rfl] at hd
  simp only [String.data_append, List.append_eq_nil] at hd
  exact hp (strEqOfData p "" (by rw [hd.1]))

theorem sampleEnvWF : EnvWF sampleEnv := by
  constructor
  · intro n i h
    injection h with h1
    subst h1
    exact strPreNe "img-" n (by decide)
  · intro t d h
    injection h with h1
    subst h1
    decide

theorem failEvalEnvWF : EnvWF failEvalEnv := by
  constructor
  · intro n i h
    injection h with h1
    subst h1
    exact strPreNe "img-" n (by decide)
  · intro t d h
    injection h with h1
    subst h1
    decide

theorem joinPath_ne (a b : String) (hb : b ≠ "") : joinPath a b ≠ "" := by
  unfold joinPath
  repeat' split
  all_goals first
    | exact hb
    | (rename_i ha; exact ha)
    | (rename_i ha _; exact ha)
    | (rename_i ha; exact strPreNe (a ++ "/") b (strPreNe a "/" ha))
    | (rename_i ha _; exact strPreNe (a ++ "/") b (strPreNe a "/" ha))

theorem cacheParent_ne (env : Env) : CacheParent env ≠ "" := by
  unfold CacheParent
  exact joinPath_ne _ _ (strPreNe (buildahCacheDir ++ "-") _ (strPreNe buildahCacheDir "-" (by decide)))

/-- Claim C9: a raw mount specification string that splits into fewer than two
comma-separated tokens fails with the MalformedSpec (invalid mount syntax)
error before any resolver is dispatched: `stepMount` rejects it from any
batch state with an empty trace (no `dispatch` event), and `getMounts` on a
batch headed by such a string fails the same way with an empty trace. -/
theorem C9_malformed (env : Env) (cd lbl w t : String) (st : GmState) (s : String)
    (rest : List String) (hlen : (splitOnChar ',' s).length < 2) :
    stepMount env cd lbl w t st s = ((st, some (.malformedSpec s)), []) ∧
    getMounts env cd lbl w t (s :: rest) = (.error (.malformedSpec s), []) := by
  have hstep : ∀ st0 : GmState,
      stepMount env cd lbl w t st0 s = ((st0, some (.malformedSpec s)), []) := by
    intro st0
    unfold stepMount
    rw [if_pos hlen]
  refine ⟨hstep st, ?_⟩
  unfold getMounts getMountsLoop
  rw [hstep gmInit]
  rfl

theorem C9_malformed_witness :
    stepMount sampleEnv "/ctx" "" "/w" "/t" gmInit "x" =
      ((gmInit, some (.malformedSpec "x")), []) ∧
    getMounts sampleEnv "/ctx" "" "/w" "/t" ["x"] = (.error (.malformedSpec "x"), []) :=
  C9_malformed sampleEnv "/ctx" "" "/w" "/t" gmInit "x" [] (by decide)

/-- Claim C2 (refuting the spec): the mount type used to dispatch a
specification string is NOT always the one declared in that same string.
`getMounts` keeps the `type=` value of an earlier string: after
`type=cache,target=/a`, the string `src=/s,target=/b` — which contains no
`type=` token and should default to the bind resolver — is dispatched to the
cache resolver, while the same string alone in a batch is dispatched to the
bind resolver. -/
theorem C2_type_carryover :
    ((getMounts sampleEnv "/ctx" "" "/w" "/t"
        ["type=cache,target=/a", "src=/s,target=/b"]).2.filter isDispatch =
      [Event.dispatch "cache", Event.dispatch "cache"]) ∧
    ((getMounts sampleEnv "/ctx" "" "/w" "/t" ["src=/s,target=/b"]).2.filter isDispatch =
      [Event.dispatch "bind"]) :=
  ⟨by decide, by decide⟩

/-- Claim C6 (amended): a BadOptionArgument failure of `GetCacheMount` is
never about the `sharing` key — the `sharing` case of the token scan stores
the (possibly empty) argument value without checking that one was given, so
a bare `sharing` token is not rejected by the scan. -/
theorem C6_sharing_badarg (env : Env) (args : List String)
    (addl : Option (List (String × StageMountDetails))) (w : String)
    (m : Mount) (l : Option String) (k : String) (tr : List Event)
    (h : GetCacheMount env args addl w = ((m, l, some (.badOptionArg k)), tr)) :
    k ≠ "sharing" :=
  GetCacheMount_badarg env args addl w m l k tr h

theorem C6_sharing_badarg_witness : ("id" : String) ≠ "sharing" :=
  C6_sharing_badarg sampleEnv ["type=cache", "id"] none "/w"
    { typ := "bind", source := "", destination := "", options := [] } none "id" [] rfl

/-- Claim C6's counterexample: a cache specification with a bare `sharing`
token (no `=value`) does not fail with BadOptionArgument as the spec says;
the empty value flows into the sharing switch and the call fails with
UnrecognizedSharingMode for the empty string. -/
theorem C6_bare_sharing :
    (GetCacheMount sampleEnv ["type=cache", "target=/t", "sharing"] none "/w").1.2.2 =
      some (.unrecognizedSharing "") :=
  by decide

/-- Claim C4: when a bind-mount resolution fails, every image it mounted on
its own behalf has been unmounted by the time the error is returned (in the
trace, `mountImage` and `unmountImage` events balance for every image ID),
and the returned mounted-image ID is empty (it is non-empty only on
success). -/
theorem C4_image_unmounted (env : Env) (args : List String) (ctx lbl : String)
    (addl : Option (List (String × StageMountDetails))) (w t : String)
    (m : Mount) (img od : String) (e : MErr) (tr : List Event)
    (h : GetBindMount env args ctx lbl addl w t = ((m, img, od, some e), tr)) :
    img = "" ∧ ∀ i, cnt (.mountImage i) tr = cnt (.unmountImage i) tr := by
  obtain ⟨himg, _, hshape⟩ := bindShape_err env args ctx lbl addl w t m img od e tr h
  refine ⟨himg, ?_⟩
  intro i
  rcases hshape with h0 | ⟨d, h1 | h1⟩ | ⟨i0, h1 | ⟨d, h1 | h1⟩⟩ <;> subst_vars <;>
    simp [cnt, List.count_cons, List.count_nil]

theorem C4_image_unmounted_witness :
    ("" : String) = "" ∧
    ∀ i, cnt (.mountImage i) [Event.mountImage "img-i1", Event.unmountImage "img-i1"] =
      cnt (.unmountImage i) [Event.mountImage "img-i1", Event.unmountImage "img-i1"] :=
  C4_image_unmounted failEvalEnv ["type=bind", "from=i1", "target=/t"] "/ctx" "" none "/w" "/t"
    { typ := "bind", source := "", destination := "/t", options := ["ro", "rbind"] }
    "" "" (.external "evalfail") [Event.mountImage "img-i1", Event.unmountImage "img-i1"] rfl

/-- Claim C8: for a bind mount that requires an overlay and whose source is a
non-directory, `convertToOverlay` overlays the parent directory of the source
and returns a mount whose source is the same-named entry (the original base
name) inside the merged view, whose destination is unchanged, and the overlay
temporary directory for later cleanup. -/
theorem C8_file_overlay (env : Env) (m : Mount) (lbl t od : String) (mo : Mount)
    (h1 : env.overlayTempDir t = .ok od)
    (h2 : env.statIsDir m.source = .ok false)
    (h3 : env.overlayMnt od (dirOf m.source) m.destination lbl = .ok mo)
    (h4 : mo.typ = TypeBind) :
    convertToOverlay env m lbl t =
      (.ok ({ mo with source := joinPath mo.source (baseOf m.source),
                      destination := m.destination }, od),
       [.createOverlay od]) := by
  unfold convertToOverlay
  rw [h1]
  dsimp only
  rw [h2]
  dsimp only
  rw [h3]
  dsimp only
  rw [if_neg (by simp [h4])]

theorem C8_file_overlay_witness :
    convertToOverlay fileEnv
        { typ := "bind", source := "/dir/file.txt", destination := "/dst", options := [] }
        "" "/t" =
      (.ok ({ typ := "bind", source := joinPath "/dir" (baseOf "/dir/file.txt"),
              destination := "/dst", options := [] }, "/overlay/TMP"),
       [.createOverlay "/overlay/TMP"]) :=
  C8_file_overlay fileEnv
    { typ := "bind", source := "/dir/file.txt", destination := "/dst", options := [] }
    "" "/t" "/overlay/TMP"
    { typ := "bind", source := "/dir", destination := "/dst", options := [] }
    rfl rfl rfl rfl

/-- Claim C10: a cache mount whose `from=` names a valid non-image stage and
that returns a lock path acquires it on the fixed relative path
`buildah-cache-lockfile` (the lock-files directory variable stays empty on
the stage path), regardless of stage name, id or destination; and when the
temporary directory is absolute that path is not under the per-user cache
root (the cache root is absolute while the lock path is relative). -/
theorem C10_stage_lockfile (env : Env) (args : List String)
    (addl : Option (List (String × StageMountDetails))) (w : String)
    (st : CacheScan) (m : Mount) (p : String) (tr : List Event)
    (hscan : cacheScanList env w cacheInitScan args = (st, none))
    (hstage : st.fromStage ≠ "")
    (h : GetCacheMount env args addl w = ((m, some p, none), tr))
    (habs : pathIsAbs env.tempDir = true) :
    p = BuildahCacheLockfile ∧ hasPre (CacheParent env) p = false := by
  have hp := (cache_success_fields env args addl w st m (some p) tr hscan h).2 hstage p rfl
  refine ⟨hp, ?_⟩
  subst hp
  have htd : ∃ r, env.tempDir.data = '/' :: r := by
    unfold pathIsAbs at habs
    split at habs
    · rename_i r heq
      exact ⟨r, heq⟩
    · simp at habs
  obtain ⟨r, hr⟩ := htd
  have htne : env.tempDir ≠ "" := by
    intro hc
    rw [hc, show ("" : String).data = [] from rfl] at hr
    cases hr
  have hyne : (buildahCacheDir ++ "-" ++ Nat.repr env.rootlessUID) ≠ "" :=
    strPreNe (buildahCacheDir ++ "-") _ (strPreNe buildahCacheDir "-" (by decide))
  have hcp : ∃ r', (CacheParent env).data = '/' :: r' := by
    unfold CacheParent joinPath
    rw [if_neg htne, if_neg hyne]
    refine ⟨(r ++ ("/").data) ++ (buildahCacheDir ++ "-" ++ Nat.repr env.rootlessUID).data, ?_⟩
    rw [String.data_append, String.data_append, hr]
    rfl
  obtain ⟨r', hr'⟩ := hcp
  unfold hasPre
  rw [hr']
  rfl

theorem C10_stage_lockfile_witness :
    "buildah-cache-lockfile" = BuildahCacheLockfile ∧
    hasPre (CacheParent sampleEnv) "buildah-cache-lockfile" = false :=
  C10_stage_lockfile sampleEnv ["type=cache", "from=s1", "target=/t", "sharing=locked"]
    (some [("s1", { isImage := false, mountPoint := "/stage" })]) "/w"
    (cacheScanList sampleEnv "/w" cacheInitScan
      ["type=cache", "from=s1", "target=/t", "sharing=locked"]).1
    { typ := "bind", source := "/stage/", destination := "/t",
      options := ["shared", "rw", "bind"] }
    "buildah-cache-lockfile" [.lockAcquire "buildah-cache-lockfile"]
    rfl (by decide) rfl (by decide)

/-- Claim C3: a cache mount resolved against the host cache (no `from=`
stage) has as host source directory the per-user cache root joined with the
hash of the explicit `id` when one was given, otherwise of the destination;
hence two such resolutions with the same non-empty `id` share the host
directory whatever their destinations, and two without `id` share it (for an
injective digest) exactly when their destinations are equal. -/
theorem C3_cache_id_hash (env : Env) (w : String)
    (addl1 addl2 : Option (List (String × StageMountDetails)))
    (args1 args2 : List String) (st1 st2 : CacheScan)
    (m1 m2 : Mount) (l1 l2 : Option String) (tr1 tr2 : List Event)
    (hs1 : cacheScanList env w cacheInitScan args1 = (st1, none))
    (hs2 : cacheScanList env w cacheInitScan args2 = (st2, none))
    (hf1 : st1.fromStage = "") (hf2 : st2.fromStage = "")
    (h1 : GetCacheMount env args1 addl1 w = ((m1, l1, none), tr1))
    (h2 : GetCacheMount env args2 addl2 w = ((m2, l2, none), tr2)) :
    m1.source = joinPath (CacheParent env) (cacheDirID env st1 st1.m.destination) ∧
    (st1.id ≠ "" → st1.id = st2.id → m1.source = m2.source) ∧
    (st1.id = "" → st2.id = "" → Function.Injective env.digest16 →
      (m1.source = m2.source ↔ m1.destination = m2.destination)) := by
  obtain ⟨hsrc1, hdst1⟩ := (cache_success_fields env args1 addl1 w st1 m1 l1 tr1 hs1 h1).1 hf1
  obtain ⟨hsrc2, hdst2⟩ := (cache_success_fields env args2 addl2 w st2 m2 l2 tr2 hs2 h2).1 hf2
  refine ⟨hsrc1, ?_, ?_⟩
  · intro hid heq
    rw [hsrc1, hsrc2]
    unfold cacheDirID
    rw [if_pos hid, if_pos (show st2.id ≠ "" from heq ▸ hid), heq]
  · intro hid1 hid2 hinj
    rw [hsrc1, hsrc2, hdst1, hdst2]
    unfold cacheDirID
    rw [if_neg (by simp [hid1]), if_neg (by simp [hid2])]
    constructor
    · intro hsrc
      exact hinj (joinPath_right_cancel (CacheParent env) _ _ (cacheParent_ne env) hsrc)
    · intro hdst
      rw [hdst]

theorem C3_cache_id_hash_witness :
    ({ typ := "bind", source := "/var/tmp/buildah-cache-0/foo", destination := "/cache",
       options := ["shared", "rw", "bind"] } : Mount).source =
      joinPath (CacheParent sampleEnv)
        (cacheDirID sampleEnv
          (cacheScanList sampleEnv "/w" cacheInitScan
            ["type=cache", "id=foo", "target=/cache"]).1
          (cacheScanList sampleEnv "/w" cacheInitScan
            ["type=cache", "id=foo", "target=/cache"]).1.m.destination) ∧
    ((cacheScanList sampleEnv "/w" cacheInitScan
        ["type=cache", "id=foo", "target=/cache"]).1.id ≠ "" →
      (cacheScanList sampleEnv "/w" cacheInitScan
        ["type=cache", "id=foo", "target=/cache"]).1.id =
      (cacheScanList sampleEnv "/w" cacheInitScan
        ["type=cache", "id=foo", "target=/other"]).1.id →
      ({ typ := "bind", source := "/var/tmp/buildah-cache-0/foo", destination := "/cache",
         options := ["shared", "rw", "bind"] } : Mount).source =
      ({ typ := "bind", source := "/var/tmp/buildah-cache-0/foo", destination := "/other",
         options := ["shared", "rw", "bind"] } : Mount).source) ∧
    ((cacheScanList sampleEnv "/w" cacheInitScan
        ["type=cache", "id=foo", "target=/cache"]).1.id = "" →
      (cacheScanList sampleEnv "/w" cacheInitScan
        ["type=cache", "id=foo", "target=/other"]).1.id = "" →
      Function.Injective sampleEnv.digest16 →
      (({ typ := "bind", source := "/var/tmp/buildah-cache-0/foo", destination := "/cache",
          options := ["shared", "rw", "bind"] } : Mount).source =
       ({ typ := "bind", source := "/var/tmp/buildah-cache-0/foo", destination := "/other",
          options := ["shared", "rw", "bind"] } : Mount).source ↔
       ({ typ := "bind", source := "/var/tmp/buildah-cache-0/foo", destination := "/cache",
          options := ["shared", "rw", "bind"] } : Mount).destination =
       ({ typ := "bind", source := "/var/tmp/buildah-cache-0/foo", destination := "/other",
          options := ["shared", "rw", "bind"] } : Mount).destination)) :=
  C3_cache_id_hash sampleEnv "/w" none none
    ["type=cache", "id=foo", "target=/cache"] ["type=cache", "id=foo", "target=/other"]
    (cacheScanList sampleEnv "/w" cacheInitScan ["type=cache", "id=foo", "target=/cache"]).1
    (cacheScanList sampleEnv "/w" cacheInitScan ["type=cache", "id=foo", "target=/other"]).1
    { typ := "bind", source := "/var/tmp/buildah-cache-0/foo", destination := "/cache",
      options := ["shared", "rw", "bind"] }
    { typ := "bind", source := "/var/tmp/buildah-cache-0/foo", destination := "/other",
      options := ["shared", "rw", "bind"] }
    none none [] []
    rfl rfl (by decide) (by decide) rfl rfl

/-- Claim C1 (amended): when two entries of a batch resolve to the same
container destination — the trace records that destination as resolved at
least twice, covering mount/mount, volume/volume and mount/volume pairs —
`GetVolumes` fails, and the trace is balanced: every image mounted is
unmounted, every overlay temporary directory created is removed, and every
lock acquired is released.  Whenever every `--volume` string parses, the
failure is specifically the DuplicateDestination error; unamended (without
that proviso) the claim fails, since a `--volume` string that does not parse
preempts the duplicate check. -/
theorem C1_duplicate_rollback (env : Env) (hw : EnvWF env) (cd lbl w t : String)
    (vols mounts : List String)
    (r : Except MErr (List Mount × List String × List String × List String))
    (T : List Event) (d : String)
    (h : GetVolumes env cd lbl w t vols mounts = (r, T))
    (hcnt : 2 ≤ cnt (.resolvedDest d) T) :
    (∃ e, r = .error e) ∧ balancedTrace T ∧
    ((∀ v ∈ vols, ∃ mv, env.parseVolume v = .ok mv) →
      ∃ d', r = .error (.duplicateDest d')) :=
  gvDupSpec env hw cd lbl w t vols mounts r T d h hcnt

theorem C1_duplicate_rollback_witness :
    (∃ e, (GetVolumes sampleEnv "/ctx" "" "/w" "/t" []
        ["type=bind,src=/s,target=/a", "type=bind,src=/q,target=/a"]).1 = .error e) ∧
    balancedTrace (GetVolumes sampleEnv "/ctx" "" "/w" "/t" []
        ["type=bind,src=/s,target=/a", "type=bind,src=/q,target=/a"]).2 ∧
    ((∀ v ∈ ([] : List String), ∃ mv, sampleEnv.parseVolume v = .ok mv) →
      ∃ d', (GetVolumes sampleEnv "/ctx" "" "/w" "/t" []
        ["type=bind,src=/s,target=/a", "type=bind,src=/q,target=/a"]).1 =
          .error (.duplicateDest d')) :=
  C1_duplicate_rollback sampleEnv sampleEnvWF "/ctx" "" "/w" "/t" []
    ["type=bind,src=/s,target=/a", "type=bind,src=/q,target=/a"]
    (GetVolumes sampleEnv "/ctx" "" "/w" "/t" []
      ["type=bind,src=/s,target=/a", "type=bind,src=/q,target=/a"]).1
    (GetVolumes sampleEnv "/ctx" "" "/w" "/t" []
      ["type=bind,src=/s,target=/a", "type=bind,src=/q,target=/a"]).2
    "/a" rfl (by decide)

/-- Claim C1's counterexample: a batch in which a `--mount` entry and a
`--volume` entry share the destination `/a` (the trace records `/a` as
resolved twice) does not fail with DuplicateDestination as the unamended
claim requires: the unparsable second `--volume` string is reached first and
its parse failure is the error returned. -/
theorem C1_parse_preempts :
    (GetVolumes sampleEnv "/ctx" "" "/w" "/t" ["vol1", "bad"]
        ["type=bind,src=/s,target=/a"]).1 = .error (.external "parse") ∧
    2 ≤ cnt (.resolvedDest "/a")
        (GetVolumes sampleEnv "/ctx" "" "/w" "/t" ["vol1", "bad"]
          ["type=bind,src=/s,target=/a"]).2 :=
  ⟨rfl, by decide⟩

/-- Claim C5: a bind mount resolved from a specification containing no
readability token (none of `rw`, `readwrite`, `ro`, `readonly`) and not
sourced from an image (the returned image ID is empty) carries `ro` and not
`rw` in its option set, and no overlay is synthesized for it: the returned
overlay directory is empty and the trace is empty. -/
theorem C5_default_readonly (env : Env) (hw : EnvWF env) (args : List String)
    (ctx lbl : String) (addl : Option (List (String × StageMountDetails)))
    (w t : String) (m : Mount) (img od : String) (tr : List Event)
    (h : GetBindMount env args ctx lbl addl w t = ((m, img, od, none), tr))
    (hv : ∀ v ∈ args, (cutEq v).1 ∉ readabilityKeys)
    (himg : img = "") :
    "ro" ∈ m.options ∧ "rw" ∉ m.options ∧ od = "" ∧ tr = [] := by
  unfold GetBindMount at h
  split at h
  · simp at h
  · rename_i st hscan
    dsimp only at h
    obtain ⟨hread, hrwiff⟩ := bindScanList_no_rw env w args bindInitScan st hscan hv
    have hread' : st.mountReadability = "" := hread.trans rfl
    have hrw : "rw" ∉ st.m.options := fun hc => by
      have hx := hrwiff.mp hc
      simp [bindInitScan] at hx
    rw [hread'] at h
    rw [if_pos rfl] at h
    have hro : "ro" ∈ bindAssembled st { st.m with options := st.m.options ++ ["ro"] } := by
      unfold bindAssembled
      split <;> simp
    have hnrw : "rw" ∉ bindAssembled st { st.m with options := st.m.options ++ ["ro"] } := by
      unfold bindAssembled
      split <;> simp_all
    have hfalse : mountIsReadWrite
        { { st.m with options := st.m.options ++ ["ro"] } with
          options := bindAssembled st { st.m with options := st.m.options ++ ["ro"] } } =
        false := by
      unfold bindAssembled
      split
      · rw [List.append_assoc]
        exact mIRW_ro _ _ _ st.m.options ["rbind"] (by decide)
      · exact mIRW_ro _ _ _ st.m.options [] (by decide)
    split at h
    · split at h
      · split at h
        · simp at h
        · split at h
          · simp at h
          · rename_i sc1 imageID hlook sc2 mp hmnt
            split at h
            · simp at h
            · rename_i m2 od2 tr2 hbf
              simp only [Prod.mk.injEq] at h
              obtain ⟨⟨hm, himg2, hod, _⟩, htr⟩ := h
              exact absurd (himg2.trans himg) (hw.lookup_ne _ _ hlook)
      · split at h
        · simp at h
        · rename_i m2 od2 tr2 hbf
          simp only [Prod.mk.injEq] at h
          obtain ⟨⟨hm, himg2, hod, _⟩, htr⟩ := h
          obtain ⟨_, hshape⟩ := bf_ok _ _ _ _ _ _ _ _ _ _ hbf
          rcases hshape with ⟨_, _, hode, htre, hopts, _⟩ | ⟨hcond, _, _⟩
          · refine ⟨?_, ?_, ?_, ?_⟩
            · rw [← hm, hopts]; exact hro
            · rw [← hm, hopts]; exact hnrw
            · rw [← hod, hode]
            · rw [← htr, htre]
          · rcases hcond with hc | hc
            · exact absurd rfl hc
            · rw [hfalse] at hc
              exact absurd hc (by decide)
    · split at h
      · simp at h
      · rename_i m2 od2 tr2 hbf
        simp only [Prod.mk.injEq] at h
        obtain ⟨⟨hm, himg2, hod, _⟩, htr⟩ := h
        obtain ⟨_, hshape⟩ := bf_ok _ _ _ _ _ _ _ _ _ _ hbf
        rcases hshape with ⟨_, _, hode, htre, hopts, _⟩ | ⟨hcond, _, _⟩
        · refine ⟨?_, ?_, ?_, ?_⟩
          · rw [← hm, hopts]; exact hro
          · rw [← hm, hopts]; exact hnrw
          · rw [← hod, hode]
          · rw [← htr, htre]
        · rcases hcond with hc | hc
          · exact absurd rfl hc
          · rw [hfalse] at hc
            exact absurd hc (by decide)

theorem C5_default_readonly_witness :
    "ro" ∈ ["ro", "rbind"] ∧ "rw" ∉ ["ro", "rbind"] ∧
    ("" : String) = "" ∧ ([] : List Event) = [] :=
  C5_default_readonly sampleEnv sampleEnvWF ["type=bind", "src=/s", "target=/t"]
    "/ctx" "" none "/w" "/t"
    { typ := "bind", source := "/ctx//s", destination := "/t", options := ["ro", "rbind"] }
    "" "" [] rfl (by decide) rfl

/-- Claim C7: in `GetBindMount`'s token scan, `relabel=private` adds `Z` and
`relabel=shared` adds `z` to the option set (when no relabel was seen yet);
a `relabel` token after an earlier one (the recorded relabel value is
already non-empty) never succeeds; and a direct `Z` or `z` token together
with a `relabel` token in the same specification is rejected — no such
specification resolves successfully, since the assembled option set would
carry two SELinux label-change options. -/
theorem C7_relabel (env : Env) (w : String) :
    (∀ st : BindScan, st.setRelabel = "" →
      bindScanStep env w st "relabel=private" =
        .ok { st with setRelabel := "private",
                      m := { st.m with options := st.m.options ++ ["Z"] } } ∧
      bindScanStep env w st "relabel=shared" =
        .ok { st with setRelabel := "shared",
                      m := { st.m with options := st.m.options ++ ["z"] } }) ∧
    (∀ (st : BindScan) (val : String) (st' : BindScan),
      (cutEq val).1 = "relabel" → st.setRelabel ≠ "" →
      bindScanStep env w st val ≠ .ok st') ∧
    (∀ (args : List String) (ctx lbl : String)
      (addl : Option (List (String × StageMountDetails))) (t : String)
      (m : Mount) (img od : String) (tr : List Event),
      ("Z" ∈ args ∨ "z" ∈ args) → (∃ rv ∈ args, (cutEq rv).1 = "relabel") →
      GetBindMount env args ctx lbl addl w t ≠ ((m, img, od, none), tr)) := by
  refine ⟨?_, ?_, ?_⟩
  · intro st hst
    exact bindScanStep_relabel_map env w st hst
  · intro st val st' hr hne hok
    exact hne (bindScanStep_relabel_ok env w st val st' hok hr)
  · intro args ctx lbl addl t m img od tr hz hr h
    obtain ⟨st, hscan, hle⟩ := bind_success_inv env args ctx lbl addl w t m img od tr h
    have hcount := bindScanList_label env w args bindInitScan st hscan
    obtain ⟨zt, hzt, hztv⟩ : ∃ zt ∈ args, zt = "Z" ∨ zt = "z" := by
      rcases hz with hz | hz
      · exact ⟨"Z", hz, Or.inl rfl⟩
      · exact ⟨"z", hz, Or.inr rfl⟩
    obtain ⟨rv, hrv, hrve⟩ := hr
    have hne2 : zt ≠ rv := by
      intro hc
      subst hc
      rcases hztv with rfl | rfl
      · exact absurd hrve (by decide)
      · exact absurd hrve (by decide)
    have h2 := twoMemCountP args zt rv (fun v => decide ((cutEq v).1 ∈ labelTokKeys))
      hzt hrv hne2
      (by rcases hztv with rfl | rfl <;> decide)
      (by simp [hrve, labelTokKeys])
    have h0 : bindInitScan.m.options.countP (fun o => isLabelChangeOpt o) = 0 := rfl
    rw [h0] at hcount
    omega
